import Mathlib

/-!
Verification development for the loxide tree-walking Lox interpreter.

The definitions below are a shallow embedding of the Rust sources:
tokenizer.rs, parser.rs, resolver.rs, environment.rs, interpreter.rs,
functions.rs, class.rs (with the method-binding variant of Instance::get
from interpreter/class.rs and interpreter/functions.rs) and the driver in
main.rs.  Shared `Rc` pointers are modelled by allocation identifiers
handed out by a counter, mutable shared environments and instances by an
explicit store, and Rust panics (`unwrap`, `unreachable!`, `panic!`) by a
distinguished `Panicked` outcome.
-/

namespace Loxide

/-- An exact rational as an integer pair (not necessarily in lowest
terms; every operation below keeps the denominator positive).  This
home-grown representation is used instead of Mathlib's `ℚ` so that all
arithmetic reduces inside the Lean kernel. -/
structure Q where
  num : Int
  den : Int
deriving DecidableEq, Repr

/-- Embed an integer. -/
def Q.ofInt (n : Int) : Q := ⟨n, 1⟩

/-- Semantic equality of rationals by cross multiplication. -/
def Q.qeq (a b : Q) : Bool := a.num * b.den = b.num * a.den

/-- Semantic order by cross multiplication (valid as denominators are kept
positive). -/
def Q.qlt (a b : Q) : Bool := a.num * b.den < b.num * a.den

/-- Whether the rational is zero. -/
def Q.isZero (a : Q) : Bool := a.num = 0

/-- Whether the rational is positive. -/
def Q.isPos (a : Q) : Bool := 0 < a.num

/-- Exact rational addition. -/
def Q.add (a b : Q) : Q := ⟨a.num * b.den + b.num * a.den, a.den * b.den⟩

/-- Exact rational negation. -/
def Q.neg (a : Q) : Q := ⟨-a.num, a.den⟩

/-- Exact rational multiplication. -/
def Q.mul (a b : Q) : Q := ⟨a.num * b.num, a.den * b.den⟩

/-- Exact rational division by a nonzero rational, keeping the denominator
positive. -/
def Q.qdiv (a b : Q) : Q :=
  if b.num < 0 then ⟨-(a.num * b.den), a.den * (-b.num)⟩
  else ⟨a.num * b.den, a.den * b.num⟩

/-- Model of an IEEE-754 binary64 value: an exact rational, one of the two
infinities, or NaN.  Arithmetic on finite values is exact rational
arithmetic (binary64 rounding is not modelled; every numeric computation
appearing in the theorems below stays inside the integers, where binary64
is itself exact).  Division by zero follows the IEEE rules: nonzero
divided by zero gives an infinity, 0/0 gives NaN. -/
inductive F where
  | fin (q : Q)
  | posInf
  | negInf
  | nan
deriving DecidableEq, Repr

/-- The integer-valued binary64 model value. -/
def F.ofInt (n : Int) : F := .fin (Q.ofInt n)

/-- Negation of a binary64 model value. -/
def F.neg : F → F
  | .fin q => .fin q.neg
  | .posInf => .negInf
  | .negInf => .posInf
  | .nan => .nan

/-- Addition (`left + right` on `f64`). -/
def F.add : F → F → F
  | .fin a, .fin b => .fin (a.add b)
  | .fin _, .posInf => .posInf
  | .fin _, .negInf => .negInf
  | .posInf, .fin _ => .posInf
  | .negInf, .fin _ => .negInf
  | .posInf, .posInf => .posInf
  | .negInf, .negInf => .negInf
  | .posInf, .negInf => .nan
  | .negInf, .posInf => .nan
  | _, _ => .nan

/-- Subtraction (`left - right` on `f64`). -/
def F.sub (a b : F) : F := F.add a (F.neg b)

/-- The sign-respecting infinity for a nonzero rational. -/
def F.infOfSign (q : Q) : F := if q.isPos then .posInf else .negInf

/-- Multiplication (`left * right` on `f64`). -/
def F.mul : F → F → F
  | .fin a, .fin b => .fin (a.mul b)
  | .fin a, .posInf => if a.isZero then .nan else F.infOfSign a
  | .fin a, .negInf => if a.isZero then .nan else F.infOfSign a.neg
  | .posInf, .fin b => if b.isZero then .nan else F.infOfSign b
  | .negInf, .fin b => if b.isZero then .nan else F.infOfSign b.neg
  | .posInf, .posInf => .posInf
  | .negInf, .negInf => .posInf
  | .posInf, .negInf => .negInf
  | .negInf, .posInf => .negInf
  | _, _ => .nan

/-- Division (`left / right` on `f64`).  On finite operands this follows
IEEE-754: a nonzero value divided by zero is the signed infinity, zero
divided by zero is NaN, everything else is the exact quotient. -/
def F.div : F → F → F
  | .fin a, .fin b =>
      if b.isZero then
        if a.isZero then .nan else F.infOfSign a
      else
        .fin (a.qdiv b)
  | .fin _, .posInf => .fin (Q.ofInt 0)
  | .fin _, .negInf => .fin (Q.ofInt 0)
  | .posInf, .fin b => if b.qlt (Q.ofInt 0) then .negInf else .posInf
  | .negInf, .fin b => if b.qlt (Q.ofInt 0) then .posInf else .negInf
  | _, _ => .nan

/-- IEEE equality on binary64 values (`==` on `f64`): NaN is not equal to
anything, including itself. -/
def F.beq : F → F → Bool
  | .fin a, .fin b => a.qeq b
  | .posInf, .posInf => true
  | .negInf, .negInf => true
  | _, _ => false

/-- `<` on `f64`: false whenever NaN is involved. -/
def F.blt : F → F → Bool
  | .fin a, .fin b => a.qlt b
  | .fin _, .posInf => true
  | .negInf, .fin _ => true
  | .negInf, .posInf => true
  | _, _ => false

/-- `<=` on `f64`: false whenever NaN is involved. -/
def F.ble (a b : F) : Bool := F.blt a b || (F.beq a b)

/-- `>` on `f64`. -/
def F.bgt (a b : F) : Bool := F.blt b a

/-- `>=` on `f64`. -/
def F.bge (a b : F) : Bool := F.ble b a

/-- Whether the value is NaN. -/
def F.isNan : F → Bool
  | .nan => true
  | _ => false

/-- Rust `Display` for `f64`, restricted to the values the theorems
exercise: an integral finite value prints as its integer digits (as Rust
prints `5f64` as `5`).  Non-integral finite values are rendered from the
exact pair; this is only a stand-in since no theorem below evaluates
display on a non-integral number. -/
def F.display : F → String
  | .fin q =>
      if q.num % q.den = 0 then toString (q.num / q.den)
      else toString q.num ++ "/" ++ toString q.den
  | .posInf => "inf"
  | .negInf => "-inf"
  | .nan => "NaN"

/-- `Span`: byte offset plus length into the source buffer (span.rs). -/
structure Span where
  offset : Nat
  len : Nat
deriving DecidableEq, Repr

/-- `Span::new` (span.rs): the empty span at offset 0. -/
def Span.new : Span := ⟨0, 0⟩

/-- `Span::grow` (span.rs): extend the span by `n` bytes. -/
def Span.grow (s : Span) (n : Nat) : Span := ⟨s.offset, s.len + n⟩

/-- `Span::after` (span.rs): the empty span starting right after `old`. -/
def Span.after (old : Span) : Span := ⟨old.offset + old.len, 0⟩

/-- A value paired with a source span (span.rs `Spanned<T>`). -/
structure Spanned (α : Type) where
  value : α
  span : Span
deriving DecidableEq, Repr

/-- Token kinds (the `TokenType` enum; the file tokens.rs is not present in
the sources, so the kind list is modelled from the spec token table and
the variants used by tokenizer.rs, parser.rs and interpreter.rs). -/
inductive TokenType where
  | LeftParen | RightParen | LeftBrace | RightBrace
  | Comma | Dot | Minus | Plus | Semicolon | Slash | Star
  | Bang | BangEqual | Equal | EqualEqual
  | Less | LessEqual | Greater | GreaterEqual
  | Identifier | String | Number
  | And | Class | Else | False | For | Fun | If | Nil | Or
  | Print | Return | Super | This | True | Var | While
  | Eof
deriving DecidableEq, Repr

/-- Modelled from the spec: tokens.rs is missing from the sources.  A token
is a kind tag, the matched lexeme text, and a span; equality is structural
(the scanner tests compare tokens with `assert_eq!` on all three fields,
and `ast.rs` derives `PartialEq, Eq, Hash` structurally through tokens). -/
structure Token where
  tokenType : TokenType
  lexeme : String
  span : Span
deriving DecidableEq, Repr

/-- A lexical error as recorded by the scanner (tokenizer.rs `LexError`):
a message and the span of the offending input. -/
structure LexError where
  span : Span
  msg : String
deriving DecidableEq, Repr

/-- The keyword table (tokenizer.rs `ident_type`). -/
def identType (s : String) : TokenType :=
  if s = "and" then .And
  else if s = "class" then .Class
  else if s = "else" then .Else
  else if s = "false" then .False
  else if s = "for" then .For
  else if s = "fun" then .Fun
  else if s = "if" then .If
  else if s = "nil" then .Nil
  else if s = "or" then .Or
  else if s = "print" then .Print
  else if s = "return" then .Return
  else if s = "super" then .Super
  else if s = "this" then .This
  else if s = "true" then .True
  else if s = "var" then .Var
  else if s = "while" then .While
  else .Identifier

/-- `Scanner::consume_while` (tokenizer.rs): consume characters while the
predicate holds, growing the span by each character's UTF-8 length.
Returns the consumed characters, the rest, and the grown span. -/
def consumeWhile (p : Char → Bool) : List Char → Span → List Char × List Char × Span
  | [], sp => ([], [], sp)
  | c :: cs, sp =>
      if p c then
        let r := consumeWhile p cs (sp.grow c.utf8Size)
        (c :: r.1, r.2.1, r.2.2)
      else
        ([], c :: cs, sp)

theorem consumeWhile_rest_length (p : Char → Bool) :
    ∀ (cs : List Char) (sp : Span),
      (consumeWhile p cs sp).2.1.length ≤ cs.length := by
  intro cs
  induction cs with
  | nil => intro sp; simp [consumeWhile]
  | cons c cs ih =>
      intro sp
      by_cases h : p c
      · simpa [consumeWhile, h] using Nat.le_succ_of_le (ih (sp.grow c.utf8Size))
      · simp [consumeWhile, h]

/-- Characters the scanner treats as a single-kind punctuation token. -/
def singleCharToken : Char → Option TokenType
  | '(' => some .LeftParen
  | ')' => some .RightParen
  | '{' => some .LeftBrace
  | '}' => some .RightBrace
  | ',' => some .Comma
  | '.' => some .Dot
  | '-' => some .Minus
  | '+' => some .Plus
  | ';' => some .Semicolon
  | '*' => some .Star
  | _ => none

/-- The `Eof` token the scanner emits when its input is exhausted. -/
def eofAt (sp : Span) : Token := ⟨.Eof, "", sp⟩

/-- The scanner's token loop (tokenizer.rs, `impl Iterator for Scanner`).
`prev` is the span of the previously produced attempt; every iteration
starts a fresh span with `Span::after`, consumes one character, branches on
it exactly as the Rust `match`, and either emits a token, records an error
and retries, or skips whitespace/comments and retries.  Lexemes are
accumulated from the consumed characters, which coincides with the Rust
slicing of the source by `span.range()`.  When the characters are
exhausted it emits exactly one `Eof` token. -/
def scanLoop : Nat → List Char → Span → List Token × List LexError
  | 0, _, _ => ([], [])
  | _ + 1, [], prev => ([eofAt (Span.after prev)], [])
  | fuel + 1, c :: cs, prev =>
      let sp := (Span.after prev).grow c.utf8Size
      match singleCharToken c with
      | some tt =>
          let r := scanLoop fuel cs sp
          (⟨tt, String.mk [c], sp⟩ :: r.1, r.2)
      | none =>
        if c = '!' ∨ c = '=' ∨ c = '<' ∨ c = '>' then
          -- two-character operator branch (`Scanner::branch`)
          match cs with
          | '=' :: cs2 =>
              let sp2 := sp.grow 1
              let tt : TokenType :=
                if c = '!' then .BangEqual
                else if c = '=' then .EqualEqual
                else if c = '<' then .LessEqual
                else .GreaterEqual
              let r := scanLoop fuel cs2 sp2
              (⟨tt, String.mk [c, '='], sp2⟩ :: r.1, r.2)
          | _ =>
              let tt : TokenType :=
                if c = '!' then .Bang
                else if c = '=' then .Equal
                else if c = '<' then .Less
                else .Greater
              let r := scanLoop fuel cs sp
              (⟨tt, String.mk [c], sp⟩ :: r.1, r.2)
        else if c = ' ' ∨ c = '\n' ∨ c = '\r' ∨ c = '\t' then
          scanLoop fuel cs sp
        else if c = '/' then
          match cs with
          | '/' :: cs2 =>
              -- line comment: consume to end of line and retry
              scanLoop fuel (consumeWhile (fun ch => ch ≠ '\n') cs2 (sp.grow 1)).2.1
                (consumeWhile (fun ch => ch ≠ '\n') cs2 (sp.grow 1)).2.2
          | _ =>
              let r := scanLoop fuel cs sp
              (⟨.Slash, "/", sp⟩ :: r.1, r.2)
        else if c = '"' then
          match consumeWhile (fun ch => ch ≠ '"') cs sp with
          | (inner, '"' :: cs2, sp1) =>
              let sp2 := sp1.grow 1
              let r := scanLoop fuel cs2 sp2
              (⟨.String, String.mk ('"' :: inner ++ ['"']), sp2⟩ :: r.1, r.2)
          | (_, [], sp1) =>
              -- unterminated string: record the error and retry (which
              -- immediately produces the Eof token)
              let r := scanLoop fuel [] sp1
              (r.1, ⟨sp1, "unterminated string"⟩ :: r.2)
          | (_, c2 :: cs2, sp1) =>
              -- unreachable: consume_while only stops at a quote or the end
              let r := scanLoop fuel cs2 (sp1.grow c2.utf8Size)
              (r.1, ⟨sp1.grow c2.utf8Size, "unterminated string"⟩ :: r.2)
        else if c.isDigit then
          match consumeWhile Char.isDigit cs sp with
          | (intPart, rest1, sp1) =>
            match rest1 with
            | '.' :: d2 :: rest2 =>
                if d2.isDigit then
                  match consumeWhile Char.isDigit (d2 :: rest2) (sp1.grow 1) with
                  | (fracPart, rest3, sp3) =>
                      let r := scanLoop fuel rest3 sp3
                      (⟨.Number, String.mk (c :: intPart ++ '.' :: fracPart), sp3⟩ :: r.1,
                        r.2)
                else
                  let r := scanLoop fuel rest1 sp1
                  (⟨.Number, String.mk (c :: intPart), sp1⟩ :: r.1, r.2)
            | _ =>
                let r := scanLoop fuel rest1 sp1
                (⟨.Number, String.mk (c :: intPart), sp1⟩ :: r.1, r.2)
        else if c.isAlpha then
          match consumeWhile (fun ch => ch.isAlphanum || ch = '_') cs sp with
          | (identPart, rest1, sp1) =>
              let lexeme := String.mk (c :: identPart)
              let r := scanLoop fuel rest1 sp1
              (⟨identType lexeme, lexeme, sp1⟩ :: r.1, r.2)
        else
          -- any other character: report and retry
          let r := scanLoop fuel cs sp
          (r.1, ⟨sp, "unrecognized input"⟩ :: r.2)

/-- `Loxide::run`'s scanning stage: collect all tokens and all lexical
errors from the source text.  Every iteration of `scanLoop` consumes at
least one character before recursing, so `length + 1` steps of fuel always
suffice to reach the final `Eof` emission; the fuel-exhausted branch is
unreachable at this fuel. -/
def scan (source : String) : List Token × List LexError :=
  scanLoop (source.toList.length + 1) source.toList Span.new

/-- Parse-time literal values (carried by `Expr::Literal`; spec data model,
as constructed by `Parser::primary`). -/
inductive Lit where
  | Nil
  | Bool (b : Bool)
  | Num (x : F)
  | Str (s : String)
deriving DecidableEq, Repr

/-- The expression AST (ast.rs `Expr`).  Equality is structural, exactly as
the Rust `#[derive(PartialEq, Eq, Hash)]`; this is also how the resolver's
`HashMap<&Expr, usize>` side-table compares keys. -/
inductive Expr where
  | Grouping (expr : Expr)
  | Get (object : Expr) (name : Token)
  | Binary (op : Token) (left : Expr) (right : Expr)
  | Variable (name : Token)
  | Assignment (name : Token) (value : Expr)
  | Set (name : Token) (object : Expr) (value : Expr)
  | Logical (op : Token) (left : Expr) (right : Expr)
  | This (keyword : Token)
  | Unary (op : Token) (right : Expr)
  | Call (callee : Expr) (paren : Token) (arguments : List Expr)
  | Literal (value : Lit)
deriving Repr

/-- The statement AST (ast.rs `Stmt`). -/
inductive Stmt where
  | Block (statements : List Stmt)
  | Expression (expr : Expr)
  | If (condition : Expr) (thenBranch : Stmt) (elseBranch : Option Stmt)
  | While (condition : Expr) (body : Stmt)
  | Print (expr : Expr)
  | Var (name : Token) (initializer : Option Expr)
  | Fun (name : Token) (params : List Token) (body : List Stmt)
  | Return (keyword : Token) (expr : Option Expr)
  | Class (name : Token) (methods : List Stmt)
deriving Repr

/-- A user function value (functions.rs `LoxFunction`): name and parameter
tokens, body statements, and the identifier of the captured environment
frame in the store. -/
structure LoxFunction where
  name : Token
  params : List Token
  body : List Stmt
  env : Nat
deriving Repr

/-- A class value (class.rs `Class`): its name and the method table; each
method is stored behind its own `Rc`, modelled by the extra allocation
identifier. -/
structure ClassRec where
  name : Token
  methods : List (String × LoxFunction × Nat)
  rc : Nat
deriving Repr

/-- Runtime values (ast.rs / interpreter.rs `LoxValue`).  `Rc` pointers are
modelled by allocation identifiers; instances are shared mutable records
and are represented by an index into the interpreter's instance store. -/
inductive Value where
  | Bool (b : Bool)
  | Num (x : F)
  | Str (s : String)
  | Nil
  | NativeFunction (rc : Nat)
  | Function (f : LoxFunction) (rc : Nat)
  | Class (c : ClassRec)
  | Instance (iid : Nat)
deriving Repr

/-- The error enum (errors.rs `LoxError`), extended with the variants the
other source files construct (`RecursiveVarDecl` from resolver.rs,
`UndeclaredVar` from environment.rs, `UndefinedProperty` from class.rs,
`IllegalPropertyAccess`/`IllegalFieldAccess` from interpreter.rs,
`ExpectedClassName`/`ExpectedPropertyName` from parser.rs); the `Return`
variant carries the returned value as interpreter.rs constructs it.
`Panicked` is the model's channel for Rust panics (`unwrap`,
`unreachable!`, `panic!`); `ModelOutOfFuel` is an artifact of running the
recursive-descent parser and the tree walker on fuel, unreachable for the
fuel supplied on every input exercised below. -/
inductive LoxError where
  | FileNotFound (file : String)
  | FailedToReadInput
  | UnexpectedToken
  | UnterminatedString
  | TooManyParams
  | TooManyArgs
  | ExpectedIdent
  | ExpectedSemicolon
  | ExpectedFunName
  | ExpectedLeftBrace (ctx : String)
  | ExpectedRightBrace (ctx : String)
  | ExpectedLeftParen (ctx : String)
  | ExpectedRightParen (ctx : String)
  | ExpectedParamName (ctx : String)
  | InvalidAssigTarget
  | ExpectedVarName
  | ExpectedExpression
  | ExpectedClassName
  | ExpectedPropertyName (ctx : String)
  | RecursiveVarDecl
  | ArityMismatch (expected found : Nat)
  | NotCallable
  | TypeError (ctx : String)
  | MultiTypeError (ctx : String)
  | UndeclaredVar (name : String)
  | UndefinedProperty (name : String)
  | IllegalPropertyAccess
  | IllegalFieldAccess
  | Return (value : Value)
  | Panicked (msg : String)
  | ModelOutOfFuel
deriving Repr

/-- Whether an error is the internal return-signal variant. -/
def LoxError.isReturn : LoxError → Bool
  | .Return _ => true
  | _ => false

/-- The `Display` implementation for `LoxError` (errors.rs): produces the
diagnostic message, except that the `Return` arm is `unreachable!()`,
modelled as `none` (displaying a `Return` error panics the process). -/
def LoxError.display : LoxError → Option String
  | .FileNotFound file => some ("File not found: " ++ file)
  | .FailedToReadInput => some "Failed to read from stdin"
  | .UnexpectedToken => some "Unexpected input"
  | .UnterminatedString => some "Unterminated string"
  | .TooManyParams => some "Maximum number of parameters allowed is 255"
  | .TooManyArgs => some "Maximum number of arguments allowed is 255"
  | .ExpectedIdent => some "Expected identifier"
  | .ExpectedSemicolon => some "Expected ; after statement"
  | .ExpectedFunName => some "Expected function name"
  | .ExpectedLeftBrace ctx => some ("Expected LBRACE " ++ ctx)
  | .ExpectedRightBrace ctx => some ("Expected RBRACE " ++ ctx)
  | .ExpectedLeftParen ctx => some ("Expected LPAREN " ++ ctx)
  | .ExpectedRightParen ctx => some ("Expected RPAREN " ++ ctx)
  | .ExpectedParamName ctx => some ("Expected parameter name " ++ ctx)
  | .InvalidAssigTarget => some "Invalid assignment target"
  | .ExpectedVarName => some "Expected variable name"
  | .ExpectedExpression => some "Expected expression"
  | .ExpectedClassName => some "Expected class name"
  | .ExpectedPropertyName ctx => some ("Expected property name " ++ ctx)
  | .RecursiveVarDecl => some "Recursive variable declaration"
  | .ArityMismatch e f =>
      some ("Expected " ++ toString e ++ " arguments, but found " ++ toString f)
  | .NotCallable => some "Expression is not callable"
  | .TypeError ctx => some ("Operand must be " ++ ctx)
  | .MultiTypeError ctx => some ("Operands must both be " ++ ctx)
  | .UndeclaredVar name => some ("Undeclared variable " ++ name)
  | .UndefinedProperty name => some ("Undefined property " ++ name)
  | .IllegalPropertyAccess => some "Illegal property access"
  | .IllegalFieldAccess => some "Illegal field access"
  | .Return _ => none
  | .Panicked _ => none
  | .ModelOutOfFuel => none

mutual

/-- Structural equality on expressions, mirroring the derived `PartialEq`
on ast.rs `Expr`.  This is the comparison the resolver side-table
`HashMap<&Expr, usize>` performs on its keys (a `&Expr` key hashes and
compares the pointed-to node structurally). -/
def Expr.beq : Expr → Expr → Bool
  | .Grouping a, .Grouping b => Expr.beq a b
  | .Get o1 n1, .Get o2 n2 => Expr.beq o1 o2 && decide (n1 = n2)
  | .Binary op1 l1 r1, .Binary op2 l2 r2 =>
      decide (op1 = op2) && Expr.beq l1 l2 && Expr.beq r1 r2
  | .Variable n1, .Variable n2 => decide (n1 = n2)
  | .Assignment n1 v1, .Assignment n2 v2 => decide (n1 = n2) && Expr.beq v1 v2
  | .Set n1 o1 v1, .Set n2 o2 v2 =>
      decide (n1 = n2) && Expr.beq o1 o2 && Expr.beq v1 v2
  | .Logical op1 l1 r1, .Logical op2 l2 r2 =>
      decide (op1 = op2) && Expr.beq l1 l2 && Expr.beq r1 r2
  | .This k1, .This k2 => decide (k1 = k2)
  | .Unary op1 r1, .Unary op2 r2 => decide (op1 = op2) && Expr.beq r1 r2
  | .Call c1 p1 a1, .Call c2 p2 a2 =>
      Expr.beq c1 c2 && decide (p1 = p2) && Expr.beqList a1 a2
  | .Literal v1, .Literal v2 => decide (v1 = v2)
  | _, _ => false

/-- Structural equality on expression lists (for `Call` arguments). -/
def Expr.beqList : List Expr → List Expr → Bool
  | [], [] => true
  | a :: as1, b :: bs => Expr.beq a b && Expr.beqList as1 bs
  | _, _ => false

end

/-- Look up a key in an association list, the model for `HashMap::get`. -/
def assocGet {α β : Type} (beq : α → α → Bool) (k : α) :
    List (α × β) → Option β
  | [] => none
  | (k2, v) :: rest => if beq k k2 then some v else assocGet beq k rest

/-- Insert or overwrite a key in an association list, the model for
`HashMap::insert`. -/
def assocPut {α β : Type} (beq : α → α → Bool) (k : α) (v : β) :
    List (α × β) → List (α × β)
  | [] => [(k, v)]
  | (k2, v2) :: rest =>
      if beq k k2 then (k2, v) :: rest else (k2, v2) :: assocPut beq k v rest

/-- Mutable parser state (parser.rs `Parser`): the remaining token stream,
the span of the most recently consumed token, and the accumulated
diagnostics list. -/
structure PState where
  tokens : List Token
  span : Span
  errors : List (Spanned LoxError)

/-- The parser computation type: Rust methods on `&mut self` returning
`ParseResult<T>`.  An early `Err` return leaves the state mutations made
so far in place, exactly as in Rust. -/
abbrev PM (α : Type) : Type := ExceptT (Spanned LoxError) (StateM PState) α

/-- `Parser::finished`: the next token is `Eof`, or there is none. -/
def finished : PM Bool := do
  let st ← get
  match st.tokens.head? with
  | some next => pure (next.tokenType = .Eof)
  | none => pure true

/-- `Parser::check`: peek at the next token's type without consuming. -/
def check (tt : TokenType) : PM Bool := do
  let st ← get
  match st.tokens.head? with
  | some next => pure (next.tokenType = tt)
  | none => pure false

/-- `Parser::consume`: record the peeked token's span, then advance. -/
def consume : PM (Option Token) := do
  let st ← get
  match st.tokens with
  | [] => pure none
  | t :: rest =>
      set { st with tokens := rest, span := t.span }
      pure (some t)

/-- `Parser::matches`: consume the next token if it has the given type. -/
def matchesTok (tt : TokenType) : PM (Option Token) := do
  if (← check tt) then consume else pure none

/-- `Parser::match_any`: consume the next token if its type is any of the
given ones. -/
def matchAny (types : List TokenType) : PM (Option Token) := do
  match (← get).tokens.head? with
  | some next =>
      if types.contains next.tokenType then consume else pure none
  | none => pure none

/-- `Parser::error`: wrap an error with the parser's current span. -/
def errorHere (err : LoxError) : PM (Spanned LoxError) := do
  pure ⟨err, (← get).span⟩

/-- Append a diagnostic to the parser's error list
(`self.errors.push(..)`). -/
def pushError (e : Spanned LoxError) : PM Unit := do
  modify fun st => { st with errors := st.errors ++ [e] }

/-- `Parser::expect`: demand the next token to have the given type,
consuming it; otherwise raise `err` at the current span. -/
def expect (expected : TokenType) (err : LoxError) : PM Token := do
  let st ← get
  match st.tokens.head? with
  | none => throw ⟨err, st.span⟩
  | some next =>
      if next.tokenType ≠ expected then
        throw ⟨err, st.span⟩
      else
        match (← consume) with
        | some t => pure t
        | none => throw ⟨.Panicked "consume unwrap", st.span⟩

/-- `Parser::synchronize`: discard tokens until just past a `;` or until
the next token begins a declaration/statement. -/
def synchronize : Nat → PM Unit
  | 0 => pure ()
  | n + 1 => do
      match (← consume) with
      | none => pure ()
      | some token =>
          if token.tokenType = .Semicolon then
            pure ()
          else
            match (← get).tokens.head? with
            | none => synchronize n
            | some next =>
                match next.tokenType with
                | .Class | .Fun | .Var | .For | .If | .While | .Print
                | .Return => pure ()
                | _ => synchronize n

/-- Fold a digit list into a natural number. -/
def digitsToNat (ds : List Char) : Nat :=
  ds.foldl (fun acc c => acc * 10 + (c.toNat - 48)) 0

/-- `token.lexeme.parse::<f64>().unwrap()` in `Parser::primary`: the
number lexeme (digits with an optional fractional part, as produced by the
scanner) read as a binary64 model value. -/
def parseNumLexeme (s : String) : F :=
  let cs := s.toList
  let intPart := cs.takeWhile Char.isDigit
  let rest := cs.dropWhile Char.isDigit
  match rest with
  | '.' :: frac =>
      let fracPart := frac.takeWhile Char.isDigit
      .fin ⟨(digitsToNat intPart) * 10 ^ fracPart.length + digitsToNat fracPart,
        (10 : Int) ^ fracPart.length⟩
  | _ => .fin ⟨digitsToNat intPart, 1⟩

/-- `&value[1..len-1]` in `Parser::primary`: strip the surrounding quotes
from a string lexeme. -/
def stringTrimQuotes (s : String) : String :=
  String.mk ((s.toList.drop 1).dropLast)

/-- The out-of-fuel artifact raised when the model's recursion budget runs
out; unreachable at the fuel `parse` supplies on the inputs exercised
below. -/
def outOfFuel : Spanned LoxError := ⟨.ModelOutOfFuel, Span.new⟩

mutual

/-- `Parser::declaration` (parser.rs). -/
def declaration : Nat → PM Stmt
  | 0 => throw outOfFuel
  | n + 1 => do
      match ← matchesTok .Var with
      | some _ => var_declaration n
      | none => statement n

/-- `Parser::var_declaration` (parser.rs). -/
def var_declaration : Nat → PM Stmt
  | 0 => throw outOfFuel
  | n + 1 => do
      let name ← expect .Identifier .ExpectedVarName
      let initializer ← do
        match ← matchesTok .Equal with
        | some _ => do pure (some (← expression n))
        | none => pure none
      let _ ← expect .Semicolon .ExpectedSemicolon
      pure (.Var name initializer)

/-- `Parser::statement` (parser.rs). -/
def statement : Nat → PM Stmt
  | 0 => throw outOfFuel
  | n + 1 => do
      match ← matchesTok .Return with
      | some keyword => return_statement n keyword
      | none =>
        match ← matchesTok .Class with
        | some _ => classStmt n
        | none =>
          match ← matchesTok .Fun with
          | some _ => function n "function"
          | none =>
            match ← matchesTok .If with
            | some _ => if_statement n
            | none =>
              match ← matchesTok .While with
              | some _ => while_statement n
              | none =>
                match ← matchesTok .For with
                | some _ => for_statement n
                | none =>
                  match ← matchesTok .Print with
                  | some _ => print_statement n
                  | none =>
                    match ← matchesTok .LeftBrace with
                    | some _ => do pure (Stmt.Block (← block n))
                    | none => expression_statement n

/-- `Parser::class` (parser.rs; named `classStmt` as `class` is reserved
in Lean). -/
def classStmt : Nat → PM Stmt
  | 0 => throw outOfFuel
  | n + 1 => do
      let name ← expect .Identifier .ExpectedClassName
      let _ ← expect .LeftBrace (.ExpectedLeftBrace "before class body")
      let methods ← classLoop n []
      let _ ← expect .RightBrace (.ExpectedRightBrace "after class body")
      pure (.Class name methods)

/-- The method-collection loop of `Parser::class`. -/
def classLoop : Nat → List Stmt → PM (List Stmt)
  | 0, _ => throw outOfFuel
  | n + 1, acc => do
      if (← check .RightBrace) then
        pure acc
      else if (← finished) then
        pure acc
      else do
        let m ← function n "method"
        classLoop n (acc ++ [m])

/-- `Parser::return_statement` (parser.rs). -/
def return_statement (n : Nat) (keyword : Token) : PM Stmt := do
  match n with
  | 0 => throw outOfFuel
  | n + 1 => do
      let e ← do
        if (← check .Semicolon) then
          pure none
        else do
          pure (some (← expression n))
      let _ ← expect .Semicolon .ExpectedSemicolon
      pure (.Return keyword e)

/-- `Parser::function` (parser.rs): a `fun` declaration or method. -/
def function (n : Nat) (kind : String) : PM Stmt := do
  match n, kind with
  | 0, _ => throw outOfFuel
  | n + 1, _ => do
      let name ← expect .Identifier .ExpectedFunName
      let _ ← expect .LeftParen (.ExpectedLeftParen "after function name")
      let params ← do
        if (← check .RightParen) then
          pure []
        else do
          let first ← expect .Identifier (.ExpectedParamName "")
          paramsLoop n [first]
      let _ ← expect .RightParen (.ExpectedRightParen "after parameters")
      let _ ← expect .LeftBrace (.ExpectedLeftBrace "before function body")
      let body ← block n
      pure (.Fun name params body)

/-- The parameter loop of `Parser::function`: `while let Some(_) =
matches(Comma)`, reporting `TooManyParams` past 255 without aborting. -/
def paramsLoop : Nat → List Token → PM (List Token)
  | 0, _ => throw outOfFuel
  | n + 1, acc => do
      match ← matchesTok .Comma with
      | some _ => do
          if acc.length ≥ 255 then
            match (← get).tokens.head? with
            | some t => pushError ⟨.TooManyParams, t.span⟩
            | none => throw ⟨.Panicked "peek unwrap", Span.new⟩
          let p ← expect .Identifier (.ExpectedParamName "")
          paramsLoop n (acc ++ [p])
      | none => pure acc

/-- `Parser::if_statement` (parser.rs). -/
def if_statement : Nat → PM Stmt
  | 0 => throw outOfFuel
  | n + 1 => do
      let _ ← expect .LeftParen (.ExpectedLeftParen "after 'if'")
      let condition ← expression n
      let _ ← expect .RightParen (.ExpectedRightParen "after if condition")
      let thenBranch ← statement n
      let elseBranch ← do
        match ← matchesTok .Else with
        | some _ => do pure (some (← statement n))
        | none => pure none
      pure (.If condition thenBranch elseBranch)

/-- `Parser::while_statement` (parser.rs). -/
def while_statement : Nat → PM Stmt
  | 0 => throw outOfFuel
  | n + 1 => do
      let _ ← expect .LeftParen (.ExpectedLeftParen "after 'while'")
      let condition ← expression n
      let _ ← expect .RightParen (.ExpectedRightParen "after while condition")
      let body ← statement n
      pure (.While condition body)

/-- `Parser::for_statement` (parser.rs), including the rewrite into a
while-loop based AST. -/
def for_statement : Nat → PM Stmt
  | 0 => throw outOfFuel
  | n + 1 => do
      let _ ← expect .LeftParen (.ExpectedLeftParen "after 'for'")
      let initializer ← do
        match ← matchesTok .Semicolon with
        | some _ => pure none
        | none =>
          match ← matchesTok .Var with
          | some _ => do pure (some (← var_declaration n))
          | none => do pure (some (← expression_statement n))
      let condition ← do
        if !(← check .Semicolon) then do
          pure (some (← expression n))
        else
          pure none
      let _ ← expect .Semicolon .ExpectedSemicolon
      let increment ← do
        if !(← check .RightParen) then do
          pure (some (← expression n))
        else
          pure none
      let _ ← expect .RightParen (.ExpectedRightParen "after for clause")
      let body0 ← statement n
      let body1 :=
        match increment with
        | some inc => Stmt.Block [body0, Stmt.Expression inc]
        | none => body0
      let cond := condition.getD (Expr.Literal (.Bool true))
      let body2 := Stmt.While cond body1
      match initializer with
      | some init => pure (Stmt.Block [init, body2])
      | none => pure body2

/-- `Parser::print_statement` (parser.rs). -/
def print_statement : Nat → PM Stmt
  | 0 => throw outOfFuel
  | n + 1 => do
      let e ← expression n
      let _ ← expect .Semicolon .ExpectedSemicolon
      pure (.Print e)

/-- `Parser::block` (parser.rs). -/
def block : Nat → PM (List Stmt)
  | 0 => throw outOfFuel
  | n + 1 => do
      let stmts ← blockLoop n []
      let _ ← expect .RightBrace (.ExpectedRightBrace "after block")
      pure stmts

/-- The statement loop of `Parser::block`. -/
def blockLoop : Nat → List Stmt → PM (List Stmt)
  | 0, _ => throw outOfFuel
  | n + 1, acc => do
      if (← check .RightBrace) then
        pure acc
      else if (← finished) then
        pure acc
      else do
        let s ← declaration n
        blockLoop n (acc ++ [s])

/-- `Parser::expression_statement` (parser.rs). -/
def expression_statement : Nat → PM Stmt
  | 0 => throw outOfFuel
  | n + 1 => do
      let e ← expression n
      let _ ← expect .Semicolon .ExpectedSemicolon
      pure (.Expression e)

/-- `Parser::expression` (parser.rs). -/
def expression : Nat → PM Expr
  | 0 => throw outOfFuel
  | n + 1 => assignment n

/-- `Parser::assignment` (parser.rs): parse the left side as an ordinary
expression and rewrite `Variable`/`Get` targets into
`Assignment`/`Set`. -/
def assignment : Nat → PM Expr
  | 0 => throw outOfFuel
  | n + 1 => do
      let e ← orExpr n
      match ← matchesTok .Equal with
      | some _ => do
          let value ← assignment n
          match e with
          | .Variable name => pure (.Assignment name value)
          | .Get object name => pure (.Set name object value)
          | _ => do throw (← errorHere .InvalidAssigTarget)
      | none => pure e

/-- `Parser::or` (parser.rs). -/
def orExpr : Nat → PM Expr
  | 0 => throw outOfFuel
  | n + 1 => do
      let e ← andExpr n
      orLoop n e

/-- The `or` operator loop. -/
def orLoop : Nat → Expr → PM Expr
  | 0, _ => throw outOfFuel
  | n + 1, e => do
      match ← matchesTok .Or with
      | some op => do
          let right ← andExpr n
          orLoop n (.Logical op e right)
      | none => pure e

/-- `Parser::and` (parser.rs). -/
def andExpr : Nat → PM Expr
  | 0 => throw outOfFuel
  | n + 1 => do
      let e ← equality n
      andLoop n e

/-- The `and` operator loop. -/
def andLoop : Nat → Expr → PM Expr
  | 0, _ => throw outOfFuel
  | n + 1, e => do
      match ← matchesTok .And with
      | some op => do
          let right ← equality n
          andLoop n (.Logical op e right)
      | none => pure e

/-- `Parser::equality` (parser.rs). -/
def equality : Nat → PM Expr
  | 0 => throw outOfFuel
  | n + 1 => do
      let e ← comparison n
      equalityLoop n e

/-- The equality operator loop. -/
def equalityLoop : Nat → Expr → PM Expr
  | 0, _ => throw outOfFuel
  | n + 1, e => do
      match ← matchAny [.BangEqual, .EqualEqual] with
      | some op => do
          let right ← comparison n
          equalityLoop n (.Binary op e right)
      | none => pure e

/-- `Parser::comparison` (parser.rs). -/
def comparison : Nat → PM Expr
  | 0 => throw outOfFuel
  | n + 1 => do
      let e ← term n
      comparisonLoop n e

/-- The comparison operator loop. -/
def comparisonLoop : Nat → Expr → PM Expr
  | 0, _ => throw outOfFuel
  | n + 1, e => do
      match ← matchAny [.Greater, .GreaterEqual, .Less, .LessEqual] with
      | some op => do
          let right ← term n
          comparisonLoop n (.Binary op e right)
      | none => pure e

/-- `Parser::term` (parser.rs). -/
def term : Nat → PM Expr
  | 0 => throw outOfFuel
  | n + 1 => do
      let e ← factor n
      termLoop n e

/-- The additive operator loop. -/
def termLoop : Nat → Expr → PM Expr
  | 0, _ => throw outOfFuel
  | n + 1, e => do
      match ← matchAny [.Minus, .Plus] with
      | some op => do
          let right ← factor n
          termLoop n (.Binary op e right)
      | none => pure e

/-- `Parser::factor` (parser.rs). -/
def factor : Nat → PM Expr
  | 0 => throw outOfFuel
  | n + 1 => do
      let e ← unary n
      factorLoop n e

/-- The multiplicative operator loop. -/
def factorLoop : Nat → Expr → PM Expr
  | 0, _ => throw outOfFuel
  | n + 1, e => do
      match ← matchAny [.Slash, .Star] with
      | some op => do
          let right ← unary n
          factorLoop n (.Binary op e right)
      | none => pure e

/-- `Parser::unary` (parser.rs). -/
def unary : Nat → PM Expr
  | 0 => throw outOfFuel
  | n + 1 => do
      match ← matchAny [.Bang, .Minus] with
      | some op => do
          let right ← unary n
          pure (.Unary op right)
      | none => call n

/-- `Parser::call` (parser.rs). -/
def call : Nat → PM Expr
  | 0 => throw outOfFuel
  | n + 1 => do
      let e ← primary n
      callLoop n e

/-- The call-suffix loop of `Parser::call`.  In the Rust source the two
`if let` tests are NOT chained: the `else { break }` belongs only to the
`Dot` test, so after an argument-list suffix the loop keeps going only
when a `.` follows; with no `.` the loop breaks. -/
def callLoop : Nat → Expr → PM Expr
  | 0, _ => throw outOfFuel
  | n + 1, e => do
      let a ← matchesTok .LeftParen
      let e1 ← do
        match a with
        | some _ => finish_call n e
        | none => pure e
      match ← matchesTok .Dot with
      | some _ => do
          let name ← expect .Identifier (.ExpectedPropertyName "after .")
          callLoop n (.Get e1 name)
      | none => pure e1

/-- `Parser::finish_call` (parser.rs). -/
def finish_call : Nat → Expr → PM Expr
  | 0, _ => throw outOfFuel
  | n + 1, callee => do
      let args ← do
        if (← check .RightParen) then
          pure []
        else do
          let first ← expression n
          argsLoop n [first]
      let paren ← expect .RightParen (.ExpectedRightBrace "after arguments")
      pure (.Call callee paren args)

/-- The argument loop of `Parser::finish_call`, reporting `TooManyArgs`
past 255 without aborting. -/
def argsLoop : Nat → List Expr → PM (List Expr)
  | 0, _ => throw outOfFuel
  | n + 1, acc => do
      match ← matchesTok .Comma with
      | some _ => do
          if acc.length ≥ 255 then
            match (← get).tokens.head? with
            | some t => pushError ⟨.TooManyArgs, t.span⟩
            | none => throw ⟨.Panicked "peek unwrap", Span.new⟩
          let arg ← expression n
          argsLoop n (acc ++ [arg])
      | none => pure acc

/-- `Parser::primary` (parser.rs). -/
def primary : Nat → PM Expr
  | 0 => throw outOfFuel
  | n + 1 => do
      match ← matchesTok .This with
      | some keyword => pure (.This keyword)
      | none =>
        match ← matchesTok .False with
        | some _ => pure (.Literal (.Bool false))
        | none =>
          match ← matchesTok .True with
          | some _ => pure (.Literal (.Bool true))
          | none =>
            match ← matchesTok .Nil with
            | some _ => pure (.Literal .Nil)
            | none =>
              match ← matchesTok .String with
              | some token =>
                  pure (.Literal (.Str (stringTrimQuotes token.lexeme)))
              | none =>
                match ← matchesTok .Number with
                | some token =>
                    pure (.Literal (.Num (parseNumLexeme token.lexeme)))
                | none =>
                  match ← matchesTok .Identifier with
                  | some name => pure (.Variable name)
                  | none =>
                    match ← matchesTok .LeftParen with
                    | some _ => do
                        let e ← expression n
                        let _ ← expect .RightParen (.ExpectedRightParen "")
                        pure (.Grouping e)
                    | none => do throw (← errorHere .ExpectedExpression)

end

/-- The statement loop of `Parser::parse`: parse declarations until
finished, recording each failure and synchronizing. -/
def parseLoop : Nat → List Stmt → PM (List Stmt)
  | 0, _ => throw outOfFuel
  | n + 1, acc => do
      if (← finished) then
        pure acc
      else do
        let acc1 ← tryCatch
          (do
            let s ← declaration n
            pure (acc ++ [s]))
          (fun err => do
            pushError err
            synchronize (n + 1)
            pure acc)
        parseLoop n acc1

/-- `Parser::parse` (parser.rs): parse the token stream, returning the
statement list when no diagnostics were recorded and the diagnostics
otherwise.  The fuel bound covers the recursion depth on every input the
theorems exercise; each recursive production consumes a token before
recursing, so depth is bounded by the token count. -/
def parse (tokens : List Token) : Except (List (Spanned LoxError)) (List Stmt) :=
  let init : PState := ⟨tokens, Span.new, []⟩
  match ((parseLoop (10 * tokens.length + 100) []).run).run init with
  | (Except.ok stmts, st) =>
      if st.errors.length = 0 then .ok stmts else .error st.errors
  | (Except.error e, st) => .error (st.errors ++ [e])

/-- String key equality for the binding maps (`HashMap<String, _>`). -/
def strBeq (a b : String) : Bool := a = b

/-- Resolver state (resolver.rs / interpreter/resolver.rs `Resolver`): the
scope stack (head = innermost scope, each a map from name to its defined
flag), the collected diagnostics — resolver.rs stores them in a field that
main.rs never reads; interpreter/resolver.rs prints them to standard error
without recording anything; in both, they influence nothing downstream —
and the output distance table, keyed by structural expression equality
exactly as the Rust `HashMap<&Expr, usize>` is.  `inserts` and
`flaggedRefs` are ghost observation lists (no Rust counterpart): the keys
`resolve_local` inserted, in order, and the references the
read-in-own-initializer check fired on. -/
structure RState where
  scopes : List (List (String × Bool))
  errors : List (Spanned LoxError)
  locals : List (Expr × Nat)
  inserts : List Expr
  flaggedRefs : List Expr

/-- `Resolver::new`. -/
def RState.new : RState := ⟨[], [], [], [], []⟩

/-- `Resolver::push_scope`. -/
def RState.push_scope (r : RState) : RState :=
  { r with scopes := [] :: r.scopes }

/-- `Resolver::pop_scope` (a pop on an empty stack is a no-op, as
`Vec::pop` returning `None` is). -/
def RState.pop_scope (r : RState) : RState :=
  { r with scopes := r.scopes.tail }

/-- `Resolver::declare`: insert the name with `false` into the innermost
scope, if any. -/
def RState.declare (r : RState) (name : Token) : RState :=
  match r.scopes with
  | [] => r
  | s :: rest => { r with scopes := assocPut strBeq name.lexeme false s :: rest }

/-- `Resolver::define`: insert the name with `true` into the innermost
scope, if any. -/
def RState.define (r : RState) (name : Token) : RState :=
  match r.scopes with
  | [] => r
  | s :: rest => { r with scopes := assocPut strBeq name.lexeme true s :: rest }

/-- The scan of `Resolver::resolve_local`: the index, counting from the
innermost scope outward, of the first scope containing the name. -/
def findScopeIndex : List (List (String × Bool)) → String → Option Nat
  | [], _ => none
  | s :: rest, name =>
      if (assocGet strBeq name s).isSome then some 0
      else (findScopeIndex rest name).map (· + 1)

/-- `Resolver::resolve_local` (resolver.rs): walk the scope stack from the
innermost scope outward and record the index of the first scope containing
the name as the expression's distance; record nothing when no scope
contains it (the reference is global). -/
def RState.resolve_local (r : RState) (expr : Expr) (name : Token) : RState :=
  match findScopeIndex r.scopes name.lexeme with
  | some i => { r with locals := assocPut Expr.beq expr i r.locals
                       inserts := r.inserts ++ [expr] }
  | none => r

mutual

/-- `Resolver::resolve_stmt` (resolver.rs).  The step budget is a model
artifact: every recursive call descends into a strict subterm (or a list
tail), so `sizeOf` of the resolved tree plus one always suffices and the
exhausted branch is unreachable at the budget `resolve_ast` supplies. -/
def resolve_stmt : Nat → RState → Stmt → RState
  | 0, r, _ => r
  | n + 1, r, stmt =>
    match stmt with
    | .Block statements => (resolve_many n (r.push_scope) statements).pop_scope
    | .Var name initializer =>
        let r1 := r.declare name
        let r2 :=
          match initializer with
          | some init => resolve_expr n r1 init
          | none => r1
        r2.define name
    | .Fun name params body =>
        resolve_fun n ((r.declare name).define name) params body
    | .Expression expr => resolve_expr n r expr
    | .If condition thenBranch elseBranch =>
        let r1 := resolve_stmt n (resolve_expr n r condition) thenBranch
        match elseBranch with
        | some e => resolve_stmt n r1 e
        | none => r1
    | .Print expr => resolve_expr n r expr
    | .Return _ expr =>
        match expr with
        | some e => resolve_expr n r e
        | none => r
    | .While condition body => resolve_stmt n (resolve_expr n r condition) body
    | .Class name methods =>
        -- resolve_class: declare + define the class name; then push a scope
        -- defining `this` and resolve each Fun method body under it
        -- (interpreter/resolver.rs; the older resolver.rs predates `this`
        -- and pushes no such scope)
        let r1 := ((r.declare name).define name).push_scope
        let r2 :=
          match r1.scopes with
          | [] => r1
          | s :: rest =>
              { r1 with scopes := assocPut strBeq "this" true s :: rest }
        (resolve_methods n r2 methods).pop_scope

/-- The method loop of the `Stmt::Class` arm of `resolve_stmt`. -/
def resolve_methods : Nat → RState → List Stmt → RState
  | 0, r, _ => r
  | n + 1, r, methods =>
    match methods with
    | [] => r
    | m :: rest =>
        match m with
        | .Fun _ params body =>
            resolve_methods n (resolve_fun n r params body) rest
        | _ => resolve_methods n r rest

/-- `Resolver::resolve_many` (resolver.rs). -/
def resolve_many : Nat → RState → List Stmt → RState
  | 0, r, _ => r
  | n + 1, r, stmts =>
    match stmts with
    | [] => r
    | s :: rest => resolve_many n (resolve_stmt n r s) rest

/-- `Resolver::resolve_fun` (resolver.rs): push a scope, declare and
define each parameter, resolve the body, pop.  (The `FunctionType` and
name arguments of the Rust function are unused and omitted.) -/
def resolve_fun : Nat → RState → List Token → List Stmt → RState
  | 0, r, _, _ => r
  | n + 1, r, params, body =>
    let r1 := params.foldl (fun acc p => (acc.declare p).define p) r.push_scope
    (resolve_many n r1 body).pop_scope

/-- The expression visitor of the resolver (interpreter/resolver.rs; the
expression arms of the older resolver.rs are identical except that its
`match` predates `Expr::This`). -/
def resolve_expr : Nat → RState → Expr → RState
  | 0, r, _ => r
  | n + 1, r, expr =>
    match expr with
    | .Variable name =>
        let r1 :=
          match r.scopes.head? with
          | some scope =>
              if (assocGet strBeq name.lexeme scope) = some false then
                { r with
                  errors := r.errors ++ [Spanned.mk LoxError.RecursiveVarDecl name.span],
                  flaggedRefs := r.flaggedRefs ++ [Expr.Variable name] }
              else r
          | none => r
        r1.resolve_local (.Variable name) name
    | .Assignment name value =>
        (resolve_expr n r value).resolve_local (.Assignment name value) name
    | .Binary _ left right => resolve_expr n (resolve_expr n r left) right
    | .Call callee _ arguments =>
        resolve_exprs n (resolve_expr n r callee) arguments
    | .Grouping expr => resolve_expr n r expr
    | .Literal _ => r
    | .Logical _ left right => resolve_expr n (resolve_expr n r left) right
    | .Unary _ right => resolve_expr n r right
    | .Get object _ => resolve_expr n r object
    | .Set _ object value => resolve_expr n (resolve_expr n r value) object
    | .This keyword => r.resolve_local (.This keyword) keyword

/-- The argument loop of the `Expr::Call` arm of `resolve_expr`. -/
def resolve_exprs : Nat → RState → List Expr → RState
  | 0, r, _ => r
  | n + 1, r, exprs =>
    match exprs with
    | [] => r
    | e :: rest => resolve_exprs n (resolve_expr n r e) rest

end

mutual

/-- Structural size of an expression, the step budget measure for the
resolver. -/
def exprSize : Expr → Nat
  | .Grouping e => exprSize e + 1
  | .Get o _ => exprSize o + 1
  | .Binary _ l r => exprSize l + exprSize r + 1
  | .Variable _ => 1
  | .Assignment _ v => exprSize v + 1
  | .Set _ o v => exprSize o + exprSize v + 1
  | .Logical _ l r => exprSize l + exprSize r + 1
  | .This _ => 1
  | .Unary _ r => exprSize r + 1
  | .Call c _ args => exprSize c + exprsSize args + 1
  | .Literal _ => 1

/-- Structural size of an expression list. -/
def exprsSize : List Expr → Nat
  | [] => 1
  | e :: rest => exprSize e + exprsSize rest + 1

/-- Structural size of a statement. -/
def stmtSize : Stmt → Nat
  | .Block stmts => stmtsSize stmts + 1
  | .Expression e => exprSize e + 1
  | .If c t e =>
      exprSize c + stmtSize t + (match e with | some s => stmtSize s | none => 0) + 1
  | .While c b => exprSize c + stmtSize b + 1
  | .Print e => exprSize e + 1
  | .Var _ init => (match init with | some e => exprSize e | none => 0) + 1
  | .Fun _ _ body => stmtsSize body + 1
  | .Return _ e => (match e with | some x => exprSize x | none => 0) + 1
  | .Class _ methods => stmtsSize methods + 1

/-- Structural size of a statement list. -/
def stmtsSize : List Stmt → Nat
  | [] => 1
  | s :: rest => stmtSize s + stmtsSize rest + 1

end

/-- `Resolver::resolve_ast` (resolver.rs): the budget `stmtsSize ast + 1`
always suffices, as every recursive resolver call strictly decreases the
size of the tree in hand. -/
def resolve_ast (ast : List Stmt) : RState :=
  resolve_many (stmtsSize ast + 1) RState.new ast

/-- One environment frame (environment.rs `Env`): the optional parent and
the interior-mutable bindings map.  Frames live in a store indexed by
allocation order; a frame's parent always has a smaller index, since
`Env::new` wraps an already existing environment. -/
structure Frame where
  parent : Option Nat
  bindings : List (String × Value)
deriving Repr

/-- A shared mutable instance record (interpreter/class.rs
`InstanceInner`): the class and the field map.  Instances live in their
own store; a `Value.Instance` holds the index. -/
structure InstRec where
  cls : ClassRec
  fields : List (String × Value)
deriving Repr

/-- The interpreter state: the environment store, the current and global
environment ids, the resolver's distance table, the lines printed to
standard output so far, the instance store, the next `Rc` allocation
identifier, and the model's wall-clock reading for the `clock`
intrinsic. -/
structure IState where
  frames : List Frame
  env : Nat
  globals : Nat
  locals : List (Expr × Nat)
  out : List String
  insts : List InstRec
  nextRc : Nat
  clock : F
  violations : List (Expr × Nat)

/-- `Interpreter::new` (interpreter.rs): the global environment holds the
single binding `clock` (whose `Rc` gets allocation id 0). -/
def IState.new (locals : List (Expr × Nat)) : IState where
  frames := [⟨none, [("clock", Value.NativeFunction 0)]⟩]
  env := 0
  globals := 0
  locals := locals
  out := []
  insts := []
  nextRc := 1
  clock := F.ofInt 0
  violations := []

/-- `Env::define` (environment.rs): insert or overwrite in frame `id`'s
own map, unconditionally. -/
def storeDefine (frames : List Frame) (id : Nat) (name : String) (v : Value) :
    List Frame :=
  match frames.get? id with
  | some fr => frames.set id { fr with bindings := assocPut strBeq name v fr.bindings }
  | none => frames

/-- The chain walk of `Env::get` (environment.rs) on a step budget: look
the name up in frame `id`'s own map, else delegate to the parent; error
`UndeclaredVar` at the root.  The budget is a model artifact standing for
the acyclicity of the `Rc` parent chain (`Env::new` always wraps an
already existing environment, so every parent index is smaller than its
child's and `frames.length + 1` steps always suffice); the exhausted
branch is unreachable in states the interpreter builds. -/
def envGetFuel : Nat → List Frame → Nat → Token → Except (Spanned LoxError) Value
  | 0, _, _, name => .error ⟨.Panicked "environment cycle", name.span⟩
  | fuel + 1, frames, id, name =>
      match frames.get? id with
      | none => .error ⟨.Panicked "dangling environment", name.span⟩
      | some fr =>
          match assocGet strBeq name.lexeme fr.bindings with
          | some v => .ok v
          | none =>
              match fr.parent with
              | some p => envGetFuel fuel frames p name
              | none => .error ⟨.UndeclaredVar name.lexeme, name.span⟩

/-- `Env::get` (environment.rs). -/
def envGet (frames : List Frame) (id : Nat) (name : Token) :
    Except (Spanned LoxError) Value :=
  envGetFuel (frames.length + 1) frames id name

/-- The chain walk of `Env::assign` (environment.rs) on a step budget:
overwrite in the first frame of the chain whose own map contains the name;
error `UndeclaredVar` when no ancestor contains it. -/
def envAssignFuel :
    Nat → List Frame → Nat → Token → Value → Except (Spanned LoxError) (List Frame)
  | 0, _, _, name, _ => .error ⟨.Panicked "environment cycle", name.span⟩
  | fuel + 1, frames, id, name, v =>
      match frames.get? id with
      | none => .error ⟨.Panicked "dangling environment", name.span⟩
      | some fr =>
          if (assocGet strBeq name.lexeme fr.bindings).isSome then
            .ok (frames.set id
              { fr with bindings := assocPut strBeq name.lexeme v fr.bindings })
          else
            match fr.parent with
            | some p => envAssignFuel fuel frames p name v
            | none => .error ⟨.UndeclaredVar name.lexeme, name.span⟩

/-- `Env::assign` (environment.rs). -/
def envAssign (frames : List Frame) (id : Nat) (name : Token) (v : Value) :
    Except (Spanned LoxError) (List Frame) :=
  envAssignFuel (frames.length + 1) frames id name v

/-- The parent walk of `Env::get_at`/`Env::assign_at` (environment.rs):
follow exactly `dist` parent links; the `unwrap` on a missing parent is a
panic. -/
def envAncestor (frames : List Frame) :
    Nat → Nat → Except (Spanned LoxError) Nat
  | id, 0 => .ok id
  | id, d + 1 =>
      match frames.get? id with
      | none => .error ⟨.Panicked "dangling environment", Span.new⟩
      | some fr =>
          match fr.parent with
          | some p => envAncestor frames p d
          | none => .error ⟨.Panicked "parent unwrap", Span.new⟩

/-- `Env::get_at` (environment.rs): walk `dist` parents, then perform the
ordinary chained `get` from that frame. -/
def get_at (frames : List Frame) (dist : Nat) (id : Nat) (name : Token) :
    Except (Spanned LoxError) Value := do
  let a ← envAncestor frames id dist
  envGet frames a name

/-- `Env::assign_at` (environment.rs): walk `dist` parents, then perform
the ordinary chained `assign` from that frame. -/
def assign_at (frames : List Frame) (dist : Nat) (id : Nat) (name : Token)
    (v : Value) : Except (Spanned LoxError) (List Frame) := do
  let a ← envAncestor frames id dist
  envAssign frames a name v

/-- The interpreter computation type (`Result<LoxValue, Spanned<LoxError>>`
with the interpreter's mutable state threaded through; state mutations
made before an `Err` persist, as they do through `&mut self` in Rust). -/
abbrev IM (α : Type) : Type := ExceptT (Spanned LoxError) (StateM IState) α

/-- `Interpreter::push_scope`: allocate a frame whose parent is the
current environment and make it current. -/
def push_scope : IM Unit := do
  modify fun st =>
    { st with
        frames := st.frames ++ [Frame.mk (some st.env) []]
        env := st.frames.length }

/-- `Interpreter::pop_scope`: back to the parent (`unwrap` panics at the
root). -/
def pop_scope : IM Unit := do
  let st ← get
  match st.frames.get? st.env with
  | none => throw ⟨.Panicked "dangling environment", Span.new⟩
  | some fr =>
      match fr.parent with
      | some p => set { st with env := p }
      | none => throw ⟨.Panicked "parent unwrap", Span.new⟩

/-- `is_truthy` (interpreter.rs): everything but `nil` and `false` is
truthy. -/
def is_truthy : Value → Bool
  | .Nil => false
  | .Bool b => b
  | _ => true

/-- `assert_num` (interpreter.rs): the numeric payload, or a
`TypeError("number")` at the operator's span. -/
def assert_num (op : Token) (v : Value) : IM F :=
  match v with
  | .Num x => pure x
  | _ => throw ⟨.TypeError "number", op.span⟩

/-- `LoxValue::is_nil` (interpreter.rs). -/
def is_nil : Value → Bool
  | .Nil => true
  | _ => false

/-- The `PartialEq` implementation on `LoxValue` (interpreter.rs):
nil equals only nil; numbers by IEEE `==`; strings by contents; booleans
by value; functions, native functions and classes by `Rc` pointer; every
remaining pair — including any pair of instances — is `false`. -/
def loxEq (a b : Value) : Bool :=
  if is_nil a && is_nil b then true
  else if is_nil a then false
  else
    match a, b with
    | .Num x, .Num y => F.beq x y
    | .Str s, .Str t => s = t
    | .Bool p, .Bool q => p = q
    | .Function _ r1, .Function _ r2 => r1 = r2
    | .NativeFunction r1, .NativeFunction r2 => r1 = r2
    | .Class c1, .Class c2 => c1.rc = c2.rc
    | _, _ => false

/-- `From<Literal> for LoxValue`. -/
def litToValue : Lit → Value
  | .Nil => .Nil
  | .Num x => .Num x
  | .Bool b => .Bool b
  | .Str s => .Str s

/-- The `Display` form of a token used inside value display — tokens.rs is
missing, so this is modelled from the spec's output forms, which show the
name's lexeme. -/
def tokenDisplay (t : Token) : String := t.lexeme

/-- The `Display` implementation on `LoxValue` (interpreter.rs), with the
class name for instances read from the instance store. -/
def displayValue (st : IState) : Value → String
  | .Nil => "nil"
  | .Num x => x.display
  | .Bool b => if b then "true" else "false"
  | .Str s => s
  | .Function f _ => "<function " ++ tokenDisplay f.name ++ ">"
  | .NativeFunction _ => "<native fn: clock>"
  | .Class c => tokenDisplay c.name
  | .Instance iid =>
      match st.insts.get? iid with
      | some rec1 => "[" ++ tokenDisplay rec1.cls.name ++ "]"
      | none => "[?]"

/-- `LoxFunction::bind` (interpreter/functions.rs): replace the captured
environment by a fresh frame whose parent is the old one and which defines
`this` to the instance. -/
def bindMethod (f : LoxFunction) (iid : Nat) : IM LoxFunction := do
  let st ← get
  let newId := st.frames.length
  set { st with
          frames :=
            st.frames ++ [Frame.mk (some f.env) [("this", Value.Instance iid)]] }
  pure { f with env := newId }

/-- Allocate a fresh `Rc` identity. -/
def freshRc : IM Nat := do
  let st ← get
  set { st with nextRc := st.nextRc + 1 }
  pure st.nextRc

/-- `Instance::get` (interpreter/class.rs): fields first, then the class
method table; a found method is bound to the instance and wrapped in a
fresh `Rc`; otherwise `UndefinedProperty`. -/
def instanceGet (iid : Nat) (name : Token) : IM Value := do
  let st ← get
  match st.insts.get? iid with
  | none => throw ⟨.Panicked "dangling instance", name.span⟩
  | some rec1 =>
      match assocGet strBeq name.lexeme rec1.fields with
      | some v => pure v
      | none =>
          match assocGet strBeq name.lexeme rec1.cls.methods with
          | some (m, _) => do
              let bound ← bindMethod m iid
              let rc ← freshRc
              pure (Value.Function bound rc)
          | none => throw ⟨.UndefinedProperty name.lexeme, name.span⟩

/-- `Instance::set` (interpreter/class.rs): write the field map of the
shared record. -/
def instanceSet (iid : Nat) (name : Token) (v : Value) : IM Unit := do
  modify fun st =>
    match st.insts.get? iid with
    | some rec1 =>
        { st with
            insts :=
              st.insts.set iid
                { rec1 with fields := assocPut strBeq name.lexeme v rec1.fields } }
    | none => st

/-- The `clock` native (functions.rs `Clock::call`): the model returns the
state's fixed wall-clock reading. -/
def clockCall : IM Value := do
  pure (Value.Num (← get).clock)

mutual

/-- `Interpreter::execute` (interpreter.rs): run one statement; every
successful arm yields `Nil`. -/
def execute : Nat → Stmt → IM Value
  | 0, _ => throw outOfFuel
  | n + 1, stmt => do
      match stmt with
      | .Print expr => do
          let val ← evaluate n expr
          modify fun st => { st with out := st.out ++ [displayValue st val] }
          pure Value.Nil
      | .Return _ expr => do
          let value ←
            match expr with
            | some e => evaluate n e
            | none => pure Value.Nil
          throw ⟨.Return value, Span.new⟩
      | .If condition thenBranch elseBranch => do
          if is_truthy (← evaluate n condition) then
            let _ ← execute n thenBranch
            pure Value.Nil
          else
            match elseBranch with
            | some e => do
                let _ ← execute n e
                pure Value.Nil
            | none => pure Value.Nil
      | .While condition body => whileLoop n condition body
      | .Expression expr => do
          let _ ← evaluate n expr
          pure Value.Nil
      | .Var name initializer => do
          let value ←
            match initializer with
            | some e => evaluate n e
            | none => pure Value.Nil
          modify fun st =>
            { st with frames := storeDefine st.frames st.env name.lexeme value }
          pure Value.Nil
      | .Block statements => exec_block n statements
      | .Fun name params body => do
          let st ← get
          let f : LoxFunction := ⟨name, params, body, st.env⟩
          let rc ← freshRc
          modify fun st2 =>
            { st2 with
                frames :=
                  storeDefine st2.frames st2.env name.lexeme (Value.Function f rc) }
          pure Value.Nil
      | .Class name methods => do
          modify fun st =>
            { st with frames := storeDefine st.frames st.env name.lexeme Value.Nil }
          let table ← methodTable n methods []
          let rc ← freshRc
          let st ← get
          let c : ClassRec := ⟨name, table, rc⟩
          match envAssign st.frames st.env name (Value.Class c) with
          | .ok frames2 => do
              set { st with frames := frames2 }
              pure Value.Nil
          | .error e => throw e

/-- The `while` loop of `Interpreter::execute`. -/
def whileLoop (n : Nat) (condition : Expr) (body : Stmt) : IM Value := do
  match n with
  | 0 => throw outOfFuel
  | n + 1 => do
      if is_truthy (← evaluate n condition) then
        let _ ← execute n body
        whileLoop n condition body
      else
        pure Value.Nil

/-- The method-map construction of the `Stmt::Class` arm: each method must
be a `Fun` statement (anything else is `panic!()`); it captures the
current environment and is stored behind a fresh `Rc`. -/
def methodTable (n : Nat) (methods : List Stmt)
    (acc : List (String × LoxFunction × Nat)) :
    IM (List (String × LoxFunction × Nat)) := do
  match n with
  | 0 => throw outOfFuel
  | n + 1 => do
      match methods with
      | [] => pure acc
      | m :: rest =>
          match m with
          | .Fun name params body => do
              let st ← get
              let f : LoxFunction := ⟨name, params, body, st.env⟩
              let rc ← freshRc
              methodTable n rest (assocPut strBeq name.lexeme (f, rc) acc)
          | _ => throw ⟨.Panicked "non-function class member", Span.new⟩

/-- `Interpreter::exec_block` (interpreter.rs): push a scope, run the
statements, pop the scope also on the error path. -/
def exec_block (n : Nat) (statements : List Stmt) : IM Value := do
  match n with
  | 0 => throw outOfFuel
  | n + 1 => do
      push_scope
      tryCatch
        (do
          let _ ← execStmts n statements
          pop_scope
          pure Value.Nil)
        (fun e => do
          pop_scope
          throw e)

/-- `Interpreter::exec_block_with_env` (interpreter.rs): run the
statements under the given environment, restoring the previous one also on
the error path. -/
def exec_block_with_env (n : Nat) (statements : List Stmt) (envId : Nat) :
    IM Value := do
  match n with
  | 0 => throw outOfFuel
  | n + 1 => do
      let prev := (← get).env
      modify fun st => { st with env := envId }
      tryCatch
        (do
          let _ ← execStmts n statements
          modify fun st => { st with env := prev }
          pure Value.Nil)
        (fun e => do
          modify fun st => { st with env := prev }
          throw e)

/-- The statement iteration common to the block runners. -/
def execStmts (n : Nat) (statements : List Stmt) : IM Unit := do
  match n with
  | 0 => throw outOfFuel
  | n + 1 => do
      match statements with
      | [] => pure ()
      | s :: rest => do
          let _ ← execute n s
          execStmts n rest

/-- `Interpreter::evaluate` (interpreter.rs). -/
def evaluate : Nat → Expr → IM Value
  | 0, _ => throw outOfFuel
  | n + 1, expr => do
      match expr with
      | .Literal value => pure (litToValue value)
      | .Call callee paren arguments => eval_call n callee arguments paren
      | .Grouping e => evaluate n e
      | .Unary op right => eval_unary n op right
      | .Binary op left right => eval_binary n op left right
      | .Logical op left right => eval_logical n op left right
      | .Variable name => lookupVar name (.Variable name)
      | .Assignment name value => do
          let v ← evaluate n value
          let st ← get
          match assocGet Expr.beq (.Assignment name value) st.locals with
          | some distance => do
              let st2 :=
                if frameAtHas st.frames distance st.env name.lexeme then st
                else { st with violations :=
                        st.violations ++ [(Expr.Assignment name value, distance)] }
              set st2
              match assign_at st2.frames distance st2.env name v with
              | .ok frames2 => do
                  set { st2 with frames := frames2 }
                  pure v
              | .error e => throw e
          | none =>
              match envAssign st.frames st.globals name v with
              | .ok frames2 => do
                  set { st with frames := frames2 }
                  pure v
              | .error e => throw e
      | .Get object name => do
          let o ← evaluate n object
          match o with
          | .Instance iid => instanceGet iid name
          | _ => throw ⟨.IllegalPropertyAccess, name.span⟩
      | .Set name object value => do
          let o ← evaluate n object
          match o with
          | .Instance iid => do
              let v ← evaluate n value
              instanceSet iid name v
              pure v
          | _ => throw ⟨.IllegalFieldAccess, name.span⟩
      | .This keyword => lookupVar keyword (.This keyword)

/-- Ghost observation for the resolution invariant: whether walking
exactly `dist` parent links from frame `id` reaches a frame whose own
local map contains the name. -/
def frameAtHas (frames : List Frame) (dist id : Nat) (name : String) : Bool :=
  match envAncestor frames id dist with
  | .ok a =>
      match frames.get? a with
      | some fr => (assocGet strBeq name fr.bindings).isSome
      | none => false
  | .error _ => false

/-- `Interpreter::lookup` (interpreter.rs): a resolved distance gives
`env.get_at`, otherwise the global frame's chained `get`.  Before the
access, the ghost `violations` list records the reference when the frame
exactly `dist` links up does not itself contain the name (pure
observation; the looked-up behaviour is unchanged). -/
def lookupVar (name : Token) (expr : Expr) : IM Value := do
  let st ← get
  match assocGet Expr.beq expr st.locals with
  | some dist => do
      let st2 :=
        if frameAtHas st.frames dist st.env name.lexeme then st
        else { st with violations := st.violations ++ [(expr, dist)] }
      set st2
      match get_at st2.frames dist st2.env name with
      | .ok v => pure v
      | .error e => throw e
  | none =>
      match envGet st.frames st.globals name with
      | .ok v => pure v
      | .error e => throw e

/-- `Interpreter::eval_call` (interpreter.rs): evaluate the callee, then
the arguments left to right, check the callable's arity and invoke it. -/
def eval_call (n : Nat) (callee : Expr) (args : List Expr) (token : Token) :
    IM Value := do
  match n with
  | 0 => throw outOfFuel
  | n + 1 => do
      let calleeVal ← evaluate n callee
      let evaluatedArgs ← evalArgs n args
      match calleeVal with
      | .NativeFunction _ => do
          if args.length ≠ 0 then
            throw ⟨.ArityMismatch 0 args.length, token.span⟩
          clockCall
      | .Function f _ => do
          if args.length ≠ f.params.length then
            throw ⟨.ArityMismatch f.params.length args.length, token.span⟩
          callFunction n f evaluatedArgs
      | .Class c => do
          if args.length ≠ 0 then
            throw ⟨.ArityMismatch 0 args.length, token.span⟩
          classCall c
      | _ => throw ⟨.NotCallable, token.span⟩

/-- The argument evaluation loop of `Interpreter::eval_call`. -/
def evalArgs (n : Nat) (args : List Expr) : IM (List Value) := do
  match n with
  | 0 => throw outOfFuel
  | n + 1 => do
      match args with
      | [] => pure []
      | a :: rest => do
          let v ← evaluate n a
          let vs ← evalArgs n rest
          pure (v :: vs)

/-- `LoxFunction::call` (functions.rs): a fresh frame over the captured
environment, parameters defined into it pairwise, the body run under it;
a `Return` signal is caught here and becomes the call's value. -/
def callFunction (n : Nat) (f : LoxFunction) (args : List Value) : IM Value := do
  match n with
  | 0 => throw outOfFuel
  | n + 1 => do
      let st ← get
      let localId := st.frames.length
      set { st with frames := st.frames ++ [Frame.mk (some f.env) []] }
      defineParams (f.params.zip args) localId
      tryCatch
        (exec_block_with_env n f.body localId)
        (fun e =>
          match e.value with
          | .Return value => pure value
          | _ => throw e)

/-- The parameter loop of `LoxFunction::call`: `params.iter().zip(args)`
defined into the fresh frame. -/
def defineParams (pairs : List (Token × Value)) (envId : Nat) : IM Unit := do
  match pairs with
  | [] => pure ()
  | (p, a) :: rest => do
      modify fun st =>
        { st with frames := storeDefine st.frames envId p.lexeme a }
      defineParams rest envId

/-- `Class::call` (interpreter/class.rs): allocate a fresh instance of the
class with no fields. -/
def classCall (c : ClassRec) : IM Value := do
  let st ← get
  let iid := st.insts.length
  set { st with insts := st.insts ++ [InstRec.mk c []] }
  pure (Value.Instance iid)

/-- `Interpreter::eval_unary` (interpreter.rs). -/
def eval_unary (n : Nat) (op : Token) (right : Expr) : IM Value := do
  match n with
  | 0 => throw outOfFuel
  | n + 1 => do
      let r ← evaluate n right
      match op.tokenType with
      | .Bang => pure (Value.Bool (!is_truthy r))
      | .Minus => do
          let num ← assert_num op r
          pure (Value.Num num.neg)
      | _ => throw ⟨.Panicked "unreachable unary operator", op.span⟩

/-- `Interpreter::eval_logical` (interpreter.rs): short-circuit on a
truthy left for `or` and a falsy left for `and`, returning the operand
value itself. -/
def eval_logical (n : Nat) (op : Token) (left right : Expr) : IM Value := do
  match n with
  | 0 => throw outOfFuel
  | n + 1 => do
      let l ← evaluate n left
      if op.tokenType = .Or then
        if is_truthy l then pure l else evaluate n right
      else
        if !is_truthy l then pure l else evaluate n right

/-- `Interpreter::eval_binary` (interpreter.rs): both operands evaluated
first; `+` is overloaded on numbers and strings; the other arithmetic and
ordering operators demand numbers; `==`/`!=` use `LoxValue` equality. -/
def eval_binary (n : Nat) (op : Token) (left right : Expr) : IM Value := do
  match n with
  | 0 => throw outOfFuel
  | n + 1 => do
      let l ← evaluate n left
      let r ← evaluate n right
      match op.tokenType with
      | .Minus => do
          let a ← assert_num op l
          let b ← assert_num op r
          pure (Value.Num (F.sub a b))
      | .Plus => do
          match l, r with
          | .Num a, .Num b => pure (Value.Num (F.add a b))
          | .Str a, .Str b => pure (Value.Str (a ++ b))
          | _, _ => throw ⟨.MultiTypeError "string or number", op.span⟩
      | .Star => do
          let a ← assert_num op l
          let b ← assert_num op r
          pure (Value.Num (F.mul a b))
      | .Slash => do
          let a ← assert_num op l
          let b ← assert_num op r
          pure (Value.Num (F.div a b))
      | .Greater => do
          let a ← assert_num op l
          let b ← assert_num op r
          pure (Value.Bool (F.bgt a b))
      | .GreaterEqual => do
          let a ← assert_num op l
          let b ← assert_num op r
          pure (Value.Bool (F.bge a b))
      | .Less => do
          let a ← assert_num op l
          let b ← assert_num op r
          pure (Value.Bool (F.blt a b))
      | .LessEqual => do
          let a ← assert_num op l
          let b ← assert_num op r
          pure (Value.Bool (F.ble a b))
      | .BangEqual => pure (Value.Bool (!loxEq l r))
      | .EqualEqual => pure (Value.Bool (loxEq l r))
      | _ => throw ⟨.Panicked "unreachable binary operator", op.span⟩

end

/-- `Interpreter::interpret` (interpreter.rs): execute the statements in
order; the successful result is `Nil`. -/
def interpret (n : Nat) (ast : List Stmt) : IM Value := do
  execStmts n ast
  pure Value.Nil

/-- The observable outcome of `Loxide::run` (main.rs): the lines written
to standard output, the two error flags, whether the interpreter stage was
reached, the resolver's collected diagnostics (a field `run` never reads),
the interpreter's result, and whether rendering a diagnostic hit the
`unreachable!()` arm of the `LoxError` `Display` (a process panic). -/
structure RunOutcome where
  stdout : List String
  staticError : Bool
  runtimeError : Bool
  interpreted : Bool
  resolverErrors : List (Spanned LoxError)
  runtimeErrorValue : Option (Spanned LoxError)
  panicked : Bool
deriving Repr

/-- The interpreter fuel `run` supplies: generous enough for every program
exercised below (a model artifact — a real non-terminating Lox program
would simply not terminate). -/
def runFuel (tokens : List Token) : Nat := 1000 + 100 * tokens.length

/-- `Loxide::run` (main.rs): scan (every lexical error sets the static
flag but scanning always yields the token list), parse (parse errors set
the static flag and return before resolution), resolve (the returned
diagnostics are dropped on the floor — only `resolver.locals` is passed
on), then interpret; a successful interpretation prints the returned value
(always `nil`) to standard output, and a failed one sets the runtime flag
and renders the error through the `LoxError` display. -/
def run (input : String) : RunOutcome :=
  let scanned := scan input
  let tokens := scanned.1
  let staticFromLex := !scanned.2.isEmpty
  match parse tokens with
  | .error _ =>
      { stdout := []
        staticError := true
        runtimeError := false
        interpreted := false
        resolverErrors := []
        runtimeErrorValue := none
        panicked := false }
  | .ok ast =>
      let r := resolve_ast ast
      let res := ((interpret (runFuel tokens) ast).run).run (IState.new r.locals)
      match res with
      | (Except.ok v, st) =>
          { stdout := st.out ++ [displayValue st v]
            staticError := staticFromLex
            runtimeError := false
            interpreted := true
            resolverErrors := r.errors
            runtimeErrorValue := none
            panicked := false }
      | (Except.error e, st) =>
          { stdout := st.out
            staticError := staticFromLex
            runtimeError := true
            interpreted := true
            resolverErrors := r.errors
            runtimeErrorValue := some e
            panicked := e.value.display.isNone }

/-- The process exit of `Loxide::run_file` (main.rs): exit 65 on a static
error, else 70 on a runtime error, else a normal exit 0.  `none` models a
process abort by panic (the diagnostic printer's `unreachable!`), which
preempts the exit-code checks. -/
def runFileExit (input : String) : Option Nat :=
  let o := run input
  if o.panicked then none
  else if o.staticError then some 65
  else if o.runtimeError then some 70
  else some 0

/-- The ghost observations of a full pipeline run: the resolver's distance
table, the references it flagged as read-in-own-initializer errors, and the
interpreter's recorded invariant violations — resolved references whose
frame at the recorded distance lacked the name at the moment of access. -/
def runGhost (input : String) : List (Expr × Nat) × List Expr × List (Expr × Nat) :=
  match parse (scan input).1 with
  | .error _ => ([], [], [])
  | .ok ast =>
      let r := resolve_ast ast
      let res := ((interpret (runFuel (scan input).1) ast).run).run (IState.new r.locals)
      (r.locals, r.flaggedRefs, res.2.violations)

/-- Whether parsing the source succeeds with no diagnostics. -/
def parseOk (s : String) : Bool :=
  match parse (scan s).1 with
  | .ok _ => true
  | .error _ => false

/-- Total UTF-8 byte length of a character list. -/
def utf8Len (cs : List Char) : Nat := (cs.map Char.utf8Size).sum

/-- `Instance::get` run on a state, exposing the result and the state. -/
def instanceGetRun (st : IState) (iid : Nat) (name : Token) :
    Except (Spanned LoxError) Value × IState :=
  ((instanceGet iid name).run).run st

/-- The data an invocation of a function value reads: the parameters it
binds, the body it executes, and the captured environment frame the call
frame is chained onto (`LoxFunction::call` reads nothing else of the
value; the `Rc` identity is invisible to dispatch). -/
def funViewOfValue (st : IState) : Value → Option (List Token × List Stmt × Option Frame)
  | .Function f _ => some (f.params, f.body, st.frames.get? f.env)
  | _ => none

/-- Whether a value is an instance. -/
def isInstanceValue : Value → Bool
  | .Instance _ => true
  | _ => false

/-- Whether a value is a number whose payload is NaN. -/
def isNanValue : Value → Bool
  | .Num x => x.isNan
  | _ => false

/-- Whether a value is a number. -/
def isNumValue : Value → Bool
  | .Num _ => true
  | _ => false

/-- `Interpreter::eval_binary` run on literal operands in a state. -/
def evalBinRun (st : IState) (op : Token) (la lb : Lit) :
    Except (Spanned LoxError) Value × IState :=
  ((eval_binary 2 op (.Literal la) (.Literal lb)).run).run st

/-- Whether a parse-time literal is a number. -/
def litIsNum : Lit → Bool
  | .Num _ => true
  | _ => false

/-- Whether a result is a success. -/
def exceptIsOk {ε α : Type} : Except ε α → Bool
  | .ok _ => true
  | .error _ => false

/-- C1: the claim asserts that running `print (1 + 2) * 3 - 4;` writes
exactly the single line `5` and that the value returned by the top-level
`interpret` call is not itself printed.  On the code it is printed:
`Loxide::run` matches `Ok(lit) => println!("{lit}")`, so standard output
is the line `5` followed by the line `nil`. -/
theorem C1_counterexample :
    (run "print (1 + 2) * 3 - 4;").stdout = ["5", "nil"] ∧
      (run "print (1 + 2) * 3 - 4;").stdout ≠ ["5"] := by
  constructor
  · decide
  · decide

/-- C1 (amended): running `print (1 + 2) * 3 - 4;` writes the line `5`
from the `print` statement and then the line `nil`, because `Loxide::run`
prints the `Ok` value of the top-level `interpret` call (which is always
nil); the run reports no static or runtime error and the file run exits
with code 0. -/
theorem C1_arith_print :
    (run "print (1 + 2) * 3 - 4;").stdout = ["5", "nil"] ∧
      (run "print (1 + 2) * 3 - 4;").staticError = false ∧
      (run "print (1 + 2) * 3 - 4;").runtimeError = false ∧
      runFileExit "print (1 + 2) * 3 - 4;" = some 0 := by
  refine ⟨by decide, by decide, by decide, by decide⟩

/-- C2: the claim asserts that any static error — lexical, parse, or
resolution — stops the pipeline before interpretation and exits with 65,
naming read-in-own-initializer as an example.  On the code a resolution
error does neither: for `{ var a = a; }` the resolver records a
`RecursiveVarDecl` diagnostic, yet the interpreter still runs and the
process exits with 70 (the runtime undeclared-variable error), not 65. -/
theorem C2_counterexample :
    (run "{ var a = a; }").resolverErrors =
        [Spanned.mk LoxError.RecursiveVarDecl ⟨10, 1⟩] ∧
      (run "{ var a = a; }").interpreted = true ∧
      runFileExit "{ var a = a; }" = some 70 := by
  refine ⟨by rfl, by decide, by decide⟩

/-- C2 (amended): only parse errors stop the pipeline before
interpretation — a failed parse returns from `run` before resolution, with
the static flag set, so the file run exits 65.  When the parse succeeds
the interpreter always runs, and the static flag (hence exit 65) is set
exactly when the scanner reported lexical errors; the resolver's
diagnostics are collected into a field the driver never reads and have no
effect on control flow or the exit code. -/
theorem C2_static_error_pipeline (input : String) :
    (∀ es, parse (scan input).1 = .error es →
        (run input).interpreted = false ∧ (run input).staticError = true ∧
          runFileExit input = some 65) ∧
      (∀ ast, parse (scan input).1 = .ok ast →
        (run input).interpreted = true ∧
          (run input).staticError = !(scan input).2.isEmpty) := by
  constructor
  · intro es h
    simp [run, h, runFileExit]
  · intro ast h
    rcases hres :
      ((interpret (runFuel (scan input).1) ast).run).run
        (IState.new (resolve_ast ast).locals) with ⟨res, st⟩
    cases res <;> simp [run, h, hres]

/-- C2 witness: at `f()();` the parse fails, so the run never reaches the
interpreter; at `print 1;` the parse succeeds and the interpreter runs
with no static flag. -/
theorem C2_static_error_pipeline_witness :
    (run "f()();").interpreted = false ∧ (run "print 1;").interpreted = true :=
  ⟨((C2_static_error_pipeline "f()();").1
      [Spanned.mk LoxError.ExpectedSemicolon ⟨2, 1⟩] (by rfl)).1,
    ((C2_static_error_pipeline "print 1;").2
      [Stmt.Print (Expr.Literal (Lit.Num (F.fin ⟨1, 1⟩)))] (by rfl)).1⟩

/-- A store is parent-monotone when every frame's parent has a smaller
index; every store the interpreter builds has this shape, since a frame's
parent is always an already existing environment. -/
def ParentMono (frames : List Frame) : Prop :=
  ∀ i fr, frames.get? i = some fr → ∀ p, fr.parent = some p → p < i

theorem envGetFuel_irrel (frames : List Frame) (hwf : ParentMono frames) :
    ∀ id fuel1 fuel2, id < fuel1 → id < fuel2 → ∀ name,
      envGetFuel fuel1 frames id name = envGetFuel fuel2 frames id name := by
  intro id
  induction id using Nat.strong_induction_on with
  | _ id ih =>
    intro fuel1 fuel2 h1 h2 name
    obtain ⟨f1, rfl⟩ : ∃ f, fuel1 = f + 1 := ⟨fuel1 - 1, by omega⟩
    obtain ⟨f2, rfl⟩ : ∃ f, fuel2 = f + 1 := ⟨fuel2 - 1, by omega⟩
    cases hfr : frames.get? id with
    | none => simp only [envGetFuel, hfr]
    | some fr =>
      cases hb : assocGet strBeq name.lexeme fr.bindings with
      | some v => simp only [envGetFuel, hfr, hb]
      | none =>
        cases hp : fr.parent with
        | some p =>
            simp only [envGetFuel, hfr, hb, hp]
            have hpi := hwf id fr hfr p hp
            exact ih p hpi f1 f2 (by omega) (by omega) name
        | none => simp only [envGetFuel, hfr, hb, hp]

theorem envAssignFuel_irrel (frames : List Frame) (hwf : ParentMono frames) :
    ∀ id fuel1 fuel2, id < fuel1 → id < fuel2 → ∀ name v,
      envAssignFuel fuel1 frames id name v = envAssignFuel fuel2 frames id name v := by
  intro id
  induction id using Nat.strong_induction_on with
  | _ id ih =>
    intro fuel1 fuel2 h1 h2 name v
    obtain ⟨f1, rfl⟩ : ∃ f, fuel1 = f + 1 := ⟨fuel1 - 1, by omega⟩
    obtain ⟨f2, rfl⟩ : ∃ f, fuel2 = f + 1 := ⟨fuel2 - 1, by omega⟩
    cases hfr : frames.get? id with
    | none => simp only [envAssignFuel, hfr]
    | some fr =>
      cases hb : (assocGet strBeq name.lexeme fr.bindings).isSome with
      | true => simp only [envAssignFuel, hfr, hb, if_true]
      | false =>
        cases hp : fr.parent with
        | some p =>
            simp only [envAssignFuel, hfr, hb, hp, Bool.false_eq_true,
              if_false]
            have hpi := hwf id fr hfr p hp
            exact ih p hpi f1 f2 (by omega) (by omega) name v
        | none =>
            simp only [envAssignFuel, hfr, hb, hp, Bool.false_eq_true, if_false]

/-- The concrete two-frame store of the C5 counterexample: the root frame
defines `x`, the child frame defines nothing. -/
def c5frames : List Frame :=
  [⟨none, [("x", Value.Num (F.fin ⟨1, 1⟩))]⟩, ⟨some 0, []⟩]

/-- The token naming `x` in the C5 counterexample. -/
def c5tok : Token := ⟨.Identifier, "x", ⟨0, 1⟩⟩

/-- C5: the claim asserts that `get_at(d, name)`/`assign_at(d, name, v)`
read/write only the local map of the frame exactly `d` hops up, erroring
when that frame lacks the name.  On the code they instead continue the
chained lookup into further ancestors: from the child frame (which does
not contain `x`), `get_at(0, x)` returns the root frame's value rather
than the undeclared-variable error, and `assign_at(0, x, 2)` writes the
root frame. -/
theorem C5_counterexample :
    get_at c5frames 0 1 c5tok = .ok (Value.Num (F.fin ⟨1, 1⟩)) ∧
      (c5frames.get? 1).map (fun fr => assocGet strBeq "x" fr.bindings) =
        some none ∧
      assign_at c5frames 0 1 c5tok (Value.Num (F.fin ⟨2, 1⟩)) =
        .ok [⟨none, [("x", Value.Num (F.fin ⟨2, 1⟩))]⟩, ⟨some 0, []⟩] := by
  refine ⟨by rfl, by rfl, by rfl⟩

/-- C5 (amended): `get_at(d, name)` and `assign_at(d, name, v)` walk
exactly `d` parent links and then perform the ordinary chained
`get`/`assign` from that frame: when the frame `d` hops up does not itself
contain the name, the operation continues with that frame's parent
(reporting undeclared-variable only when no frame from there to the root
contains the name). -/
theorem C5_get_at_continues (frames : List Frame) (d id a p : Nat)
    (name : Token) (fr : Frame) (hwf : ParentMono frames)
    (ha : envAncestor frames id d = .ok a)
    (hfr : frames.get? a = some fr)
    (hmiss : assocGet strBeq name.lexeme fr.bindings = none)
    (hp : fr.parent = some p) :
    get_at frames d id name = envGet frames a name ∧
      envGet frames a name = envGet frames p name ∧
      (∀ v, assign_at frames d id name v = envAssign frames a name v ∧
        envAssign frames a name v = envAssign frames p name v) := by
  have halen : a < frames.length := by
    by_contra hcon
    rw [List.get?_eq_none.mpr (by omega)] at hfr
    exact Option.noConfusion hfr
  have hpa : p < a := hwf a fr hfr p hp
  refine ⟨?_, ?_, ?_⟩
  · simp only [get_at, ha]
    rfl
  · show envGetFuel (frames.length + 1) frames a name = _
    rw [show frames.length + 1 = frames.length + 1 from rfl]
    simp only [envGetFuel, hfr, hmiss, hp]
    exact envGetFuel_irrel frames hwf p frames.length (frames.length + 1)
      (by omega) (by omega) name
  · intro v
    constructor
    · simp only [assign_at, ha]
      rfl
    · show envAssignFuel (frames.length + 1) frames a name v = _
      simp only [envAssignFuel, hfr, hmiss, Option.isSome_none, hp]
      exact envAssignFuel_irrel frames hwf p frames.length (frames.length + 1)
        (by omega) (by omega) name v

/-- C5 witness: the amended statement at the concrete two-frame store. -/
theorem C5_get_at_continues_witness :
    get_at c5frames 0 1 c5tok = envGet c5frames 1 c5tok ∧
      envGet c5frames 1 c5tok = envGet c5frames 0 c5tok := by
  have hwf : ParentMono c5frames := by
    intro i fr hfr p hp
    match i, hfr with
    | 0, hfr =>
        simp [c5frames] at hfr
        rw [← hfr] at hp
        simp at hp
    | 1, hfr =>
        simp [c5frames] at hfr
        rw [← hfr] at hp
        simp at hp
        omega
  have h := C5_get_at_continues c5frames 0 1 1 0 c5tok ⟨some 0, []⟩ hwf
    (by rfl) (by rfl) (by rfl) (by rfl)
  exact ⟨h.1, h.2.1⟩

/-- C6: the claim (and the grammar comment in the source) says the call
production repeats `(args)` and `.IDENT` suffixes arbitrarily, so that
`f()();` parses without a diagnostic.  In `Parser::call` the two suffix
tests are not chained by an `else`, so after an argument-list suffix the
loop continues only when a `.` follows: `f()();` stops after `f()` and the
statement parser then reports `ExpectedSemicolon` at the second `(`, while
`f().g();` (where every call suffix is followed by a dot) and `f();` do
parse. -/
theorem C6_call_suffix_loop :
    parse (scan "f()();").1 =
        .error [Spanned.mk LoxError.ExpectedSemicolon ⟨2, 1⟩] ∧
      parseOk "f().g();" = true ∧ parseOk "f();" = true := by
  refine ⟨by rfl, by rfl, by rfl⟩

/-- C7: the claim asserts `v == v` for every `LoxValue`, instances
included.  The `PartialEq` implementation has no `Instance` arm, so any
instance compared with itself falls through to the final `false`; IEEE
`==` also makes a NaN number unequal to itself. -/
theorem C7_counterexample :
    loxEq (Value.Instance 0) (Value.Instance 0) = false ∧
      loxEq (Value.Num F.nan) (Value.Num F.nan) = false := by
  exact ⟨rfl, rfl⟩

/-- C7 (amended): `==` is reflexive for every non-instance value whose
numeric payload is not NaN (nil, booleans, non-NaN numbers, strings,
functions, native functions, classes); for instances `==` always yields
`false` — even when the two sides are the same instance, and a fortiori
for two distinct instances with equal classes and fields. -/
theorem C7_equality_reflexive :
    (∀ v : Value, isInstanceValue v = false → isNanValue v = false →
        loxEq v v = true) ∧
      (∀ i j : Nat, loxEq (Value.Instance i) (Value.Instance j) = false) := by
  constructor
  · intro v hv hn
    cases v with
    | Num x =>
        cases x <;> simp_all [loxEq, is_nil, isNanValue, F.isNan, F.beq, Q.qeq]
    | _ => simp_all [loxEq, is_nil, isInstanceValue, F.beq]
  · intro i j
    rfl

/-- C7 witness: reflexivity at the number 2, and instance values 0, 1. -/
theorem C7_equality_reflexive_witness :
    loxEq (Value.Num (F.fin ⟨2, 1⟩)) (Value.Num (F.fin ⟨2, 1⟩)) = true ∧
      loxEq (Value.Instance 0) (Value.Instance 1) = false :=
  ⟨C7_equality_reflexive.1 (Value.Num (F.fin ⟨2, 1⟩)) rfl rfl,
    C7_equality_reflexive.2 0 1⟩

/-- C8: the claim — matching the `unreachable!()` assertion in the
`LoxError` `Display` implementation — says the `Return` variant never
reaches the diagnostic printer, even for a top-level `return`.  The code
violates its own assertion: for the file `return 1;` the interpreter's
`Stmt::Return` arm raises `LoxError::Return(1)`, nothing catches it at the
top level, and `Loxide::run` feeds it to the printer, whose `Return` arm
is `unreachable!()` — the process panics instead of exiting 0/65/70. -/
theorem C8_toplevel_return :
    (run "return 1;").runtimeErrorValue =
        some ⟨.Return (Value.Num (F.fin ⟨1, 1⟩)), Span.new⟩ ∧
      LoxError.display (.Return (Value.Num (F.fin ⟨1, 1⟩))) = none ∧
      (run "return 1;").panicked = true ∧
      runFileExit "return 1;" = none := by
  refine ⟨by rfl, by rfl, by decide, by decide⟩

/-- C10: evaluating `/` on two numbers never raises an error and returns
the IEEE-754 quotient — a nonzero number divided by zero gives the
sign-respecting infinity and `0 / 0` gives NaN, with no diagnostic — and
`/` raises the `TypeError("number")` diagnostic exactly when at least one
operand is not a number. -/
theorem C10_division :
    (∀ (st : IState) (op : Token) (a b : F), op.tokenType = .Slash →
        evalBinRun st op (.Num a) (.Num b) = (.ok (Value.Num (F.div a b)), st)) ∧
      (∀ q z : Q, z.isZero = true → q.isZero = false →
        F.div (.fin q) (.fin z) = F.infOfSign q) ∧
      (∀ z1 z2 : Q, z1.isZero = true → z2.isZero = true →
        F.div (.fin z1) (.fin z2) = F.nan) ∧
      (∀ (st : IState) (op : Token) (la lb : Lit), op.tokenType = .Slash →
        exceptIsOk (evalBinRun st op la lb).1 = (litIsNum la && litIsNum lb)) ∧
      (∀ (st : IState) (op : Token) (la lb : Lit), op.tokenType = .Slash →
        (litIsNum la && litIsNum lb) = false →
        (evalBinRun st op la lb).1 = .error ⟨.TypeError "number", op.span⟩) := by
  refine ⟨?_, ?_, ?_, ?_, ?_⟩
  · intro st op a b h
    obtain ⟨tt, lex, sp⟩ := op
    cases h
    rfl
  · intro q z hz hq
    simp [F.div, hz, hq]
  · intro z1 z2 h1 h2
    simp [F.div, h1, h2]
  · intro st op la lb h
    obtain ⟨tt, lex, sp⟩ := op
    cases h
    cases la <;> cases lb <;> rfl
  · intro st op la lb h hno
    obtain ⟨tt, lex, sp⟩ := op
    cases h
    cases la <;> cases lb <;> first | rfl | simp_all [litIsNum]

theorem instanceGet_spec (st : IState) (iid : Nat) (name : Token)
    (rec1 : InstRec) (m : LoxFunction) (mrc : Nat)
    (hinst : st.insts.get? iid = some rec1)
    (hfield : assocGet strBeq name.lexeme rec1.fields = none)
    (hmethod : assocGet strBeq name.lexeme rec1.cls.methods = some (m, mrc)) :
    instanceGetRun st iid name =
      (.ok (Value.Function { m with env := st.frames.length } st.nextRc),
        { st with
            frames := st.frames ++
              [Frame.mk (some m.env) [("this", Value.Instance iid)]]
            nextRc := st.nextRc + 1 }) := by
  simp only [instanceGetRun, instanceGet, bindMethod, freshRc]
  simp only [ExceptT.run, ExceptT.bind, ExceptT.mk, StateT.run, StateT.bind,
    bind, pure, ExceptT.pure, StateT.pure, get, set, getThe, MonadStateOf.get,
    StateT.get, MonadStateOf.set, StateT.set, ExceptT.bindCont, Monad.toBind,
    liftM, monadLift, MonadLift.monadLift, MonadLiftT.monadLift, StateT.lift,
    ExceptT.lift, throw, throwThe, MonadExceptOf.throw, Functor.map, StateT.map]
  simp only [hinst, hfield, hmethod]
  rfl

/-- C3: on an instance whose class defines a method of the read name (not
shadowed by a field), `Instance::get` returns a fresh user function —
wrapped in a newly allocated `Rc` — whose captured environment is one
fresh frame, defining `this` to that instance, chained onto the method's
own captured environment.  Two consecutive reads of the same method on the
same instance allocate distinct `Rc`s, so the two function values compare
unequal under `LoxValue` `==`; yet they dispatch identically when called:
the call-relevant data (parameters, body, and the captured frame with its
parent pointer) of the two values coincide. -/
theorem C3_method_binding (st : IState) (iid : Nat) (name : Token)
    (rec1 : InstRec) (m : LoxFunction) (mrc : Nat)
    (hinst : st.insts.get? iid = some rec1)
    (hfield : assocGet strBeq name.lexeme rec1.fields = none)
    (hmethod : assocGet strBeq name.lexeme rec1.cls.methods = some (m, mrc)) :
    instanceGetRun st iid name =
        (.ok (Value.Function { m with env := st.frames.length } st.nextRc),
          { st with
              frames := st.frames ++
                [Frame.mk (some m.env) [("this", Value.Instance iid)]]
              nextRc := st.nextRc + 1 }) ∧
      (instanceGetRun
            { st with
                frames := st.frames ++
                  [Frame.mk (some m.env) [("this", Value.Instance iid)]]
                nextRc := st.nextRc + 1 } iid name).1 =
        .ok (Value.Function { m with env := st.frames.length + 1 }
          (st.nextRc + 1)) ∧
      loxEq (Value.Function { m with env := st.frames.length } st.nextRc)
          (Value.Function { m with env := st.frames.length + 1 }
            (st.nextRc + 1)) = false ∧
      funViewOfValue
          (instanceGetRun
            { st with
                frames := st.frames ++
                  [Frame.mk (some m.env) [("this", Value.Instance iid)]]
                nextRc := st.nextRc + 1 } iid name).2
          (Value.Function { m with env := st.frames.length } st.nextRc) =
        funViewOfValue
          (instanceGetRun
            { st with
                frames := st.frames ++
                  [Frame.mk (some m.env) [("this", Value.Instance iid)]]
                nextRc := st.nextRc + 1 } iid name).2
          (Value.Function { m with env := st.frames.length + 1 }
            (st.nextRc + 1)) := by
  have h1 := instanceGet_spec st iid name rec1 m mrc hinst hfield hmethod
  have h2 := instanceGet_spec
    { st with
        frames := st.frames ++
          [Frame.mk (some m.env) [("this", Value.Instance iid)]]
        nextRc := st.nextRc + 1 } iid name rec1 m mrc hinst hfield hmethod
  refine ⟨h1, ?_, ?_, ?_⟩
  · rw [h2]
    simp
  · simp [loxEq, is_nil]
  · rw [h2]
    dsimp only [funViewOfValue]
    have hga : ((st.frames ++
          [Frame.mk (some m.env) [("this", Value.Instance iid)]]) ++
          [Frame.mk (some m.env) [("this", Value.Instance iid)]]).get?
          st.frames.length =
        some (Frame.mk (some m.env) [("this", Value.Instance iid)]) := by
      rw [List.get?_append (by simp)]
      rw [List.get?_append_right (by simp)]
      simp
    have hgb : ((st.frames ++
          [Frame.mk (some m.env) [("this", Value.Instance iid)]]) ++
          [Frame.mk (some m.env) [("this", Value.Instance iid)]]).get?
          (st.frames.length + 1) =
        some (Frame.mk (some m.env) [("this", Value.Instance iid)]) := by
      rw [List.get?_append_right (by simp)]
      simp
    simp [hga, hgb, List.getElem_append_right]

/-- C3 witness: a concrete one-instance state — class `A` with method `f`
and no fields — instantiating the binding theorem. -/
theorem C3_method_binding_witness :
    instanceGetRun
        { frames := [⟨none, []⟩]
          env := 0
          globals := 0
          locals := []
          out := []
          insts := [⟨⟨⟨.Identifier, "A", ⟨0, 1⟩⟩,
            [("f", ⟨⟨⟨.Identifier, "f", ⟨2, 1⟩⟩, [], [], 0⟩, 7⟩)], 5⟩, []⟩]
          nextRc := 9
          clock := F.ofInt 0
          violations := [] } 0 ⟨.Identifier, "f", ⟨4, 1⟩⟩ =
      (.ok (Value.Function ⟨⟨.Identifier, "f", ⟨2, 1⟩⟩, [], [], 1⟩ 9),
        { frames := [⟨none, []⟩, ⟨some 0, [("this", Value.Instance 0)]⟩]
          env := 0
          globals := 0
          locals := []
          out := []
          insts := [⟨⟨⟨.Identifier, "A", ⟨0, 1⟩⟩,
            [("f", ⟨⟨⟨.Identifier, "f", ⟨2, 1⟩⟩, [], [], 0⟩, 7⟩)], 5⟩, []⟩]
          nextRc := 10
          clock := F.ofInt 0
          violations := [] }) := by
  have h := C3_method_binding
    { frames := [⟨none, []⟩]
      env := 0
      globals := 0
      locals := []
      out := []
      insts := [⟨⟨⟨.Identifier, "A", ⟨0, 1⟩⟩,
        [("f", ⟨⟨⟨.Identifier, "f", ⟨2, 1⟩⟩, [], [], 0⟩, 7⟩)], 5⟩, []⟩]
      nextRc := 9
      clock := F.ofInt 0
      violations := [] } 0 ⟨.Identifier, "f", ⟨4, 1⟩⟩
    ⟨⟨⟨.Identifier, "A", ⟨0, 1⟩⟩,
      [("f", ⟨⟨⟨.Identifier, "f", ⟨2, 1⟩⟩, [], [], 0⟩, 7⟩)], 5⟩, []⟩
    ⟨⟨.Identifier, "f", ⟨2, 1⟩⟩, [], [], 0⟩ 7 (by rfl) (by rfl) (by rfl)
  exact h.1

theorem alpha_utf8Size (c : Char) (h : c.isAlpha = true) : c.utf8Size = 1 := by
  simp [Char.isAlpha, Char.isUpper, Char.isLower, UInt32.le_def, BitVec.le_def] at h
  simp [Char.utf8Size, UInt32.le_def, BitVec.le_def]
  omega

theorem isDigit_eq_false_of_isAlpha (c : Char) (h : c.isAlpha = true) :
    c.isDigit = false := by
  simp [Char.isAlpha, Char.isUpper, Char.isLower, Char.isDigit,
    UInt32.le_def, BitVec.le_def] at *
  omega

theorem singleCharToken_none_of_alpha (c : Char) (h : c.isAlpha = true) :
    singleCharToken c = none := by
  unfold singleCharToken
  split
  all_goals first | rfl | exact absurd h (by decide)

theorem consumeWhile_all (p : Char → Bool) :
    ∀ (cs : List Char) (sp : Span), (∀ c ∈ cs, p c = true) →
      consumeWhile p cs sp = (cs, [], ⟨sp.offset, sp.len + utf8Len cs⟩) := by
  intro cs
  induction cs with
  | nil => intro sp _; simp [consumeWhile, utf8Len]
  | cons c cs ih =>
      intro sp h
      have hc : p c = true := h c (by simp)
      have hrest : ∀ x ∈ cs, p x = true := fun x hx => h x (by simp [hx])
      simp only [consumeWhile, hc, if_true, ih (sp.grow c.utf8Size) hrest]
      simp [Span.grow, utf8Len]
      omega

/-- C9: the claim asserts the scanner accepts `_` as the first character
of an identifier.  Both scanner copies require an ASCII alphabetic to
begin an identifier (`_ if ch.is_ascii_alphabetic()`); a leading `_` falls
into the catch-all arm, which records an "unrecognized input" error and
retries, so `_a` lexes as an error plus a separate identifier `a` — not a
single identifier covering the whole lexeme with no error. -/
theorem C9_counterexample :
    scan "_a" =
        ([⟨.Identifier, "a", ⟨1, 1⟩⟩, ⟨.Eof, "", ⟨2, 0⟩⟩],
          [⟨⟨0, 1⟩, "unrecognized input"⟩]) ∧
      (scan "_a").2 ≠ [] := by
  refine ⟨by rfl, by decide⟩

/-- C9 (amended): an identifier must start with an ASCII alphabetic;
underscores are accepted only in continuation position.  For every input
consisting of an ASCII alphabetic followed by ASCII alphanumerics or
underscores (and not spelling a keyword), the scanner emits a single
`Identifier` token covering the whole lexeme and reports no error; for
every input beginning with `_`, the scanner's first diagnostic is the
"unrecognized input" error for the underscore, and the remainder is
scanned separately. -/
theorem C9_identifier_scanning (c : Char) (rest : List Char)
    (hc : c.isAlpha = true)
    (hrest : ∀ ch ∈ rest, (ch.isAlphanum || ch = '_') = true)
    (hkw : identType (String.mk (c :: rest)) = .Identifier) :
    scan (String.mk (c :: rest)) =
        ([⟨.Identifier, String.mk (c :: rest), ⟨0, utf8Len (c :: rest)⟩⟩,
          ⟨.Eof, "", ⟨utf8Len (c :: rest), 0⟩⟩], []) ∧
      ∀ rest2 : List Char,
        ((scan (String.mk ('_' :: rest2))).2).head? =
          some ⟨⟨0, 1⟩, "unrecognized input"⟩ := by
  have h1 : c.utf8Size = 1 := alpha_utf8Size c hc
  have h2 : singleCharToken c = none := singleCharToken_none_of_alpha c hc
  have h3 : ¬(c = '!' ∨ c = '=' ∨ c = '<' ∨ c = '>') := by
    rintro (rfl | rfl | rfl | rfl) <;> exact absurd hc (by decide)
  have h4 : ¬(c = ' ' ∨ c = '\n' ∨ c = '\r' ∨ c = '\t') := by
    rintro (rfl | rfl | rfl | rfl) <;> exact absurd hc (by decide)
  have h5 : ¬(c = '/') := by rintro rfl; exact absurd hc (by decide)
  have h6 : ¬(c = '"') := by rintro rfl; exact absurd hc (by decide)
  have h7 : c.isDigit = false := isDigit_eq_false_of_isAlpha c hc
  have h8 := consumeWhile_all (fun ch => ch.isAlphanum || ch = '_')
    rest ⟨0, 1⟩ hrest
  constructor
  · show scanLoop (rest.length + 1 + 1) (c :: rest) Span.new = _
    simp only [scanLoop, h2, h7, hc, Span.new, Span.after, Span.grow, h1]
    rw [if_neg h3, if_neg h4, if_neg h5, if_neg h6]
    simp only [Bool.false_eq_true, if_false, if_true]
    have h8a : consumeWhile (fun ch => ch.isAlphanum || ch = '_') rest
        ⟨0 + 0, 0 + 1⟩ = (rest, [], ⟨0, 1 + utf8Len rest⟩) := by
      simpa using h8
    rw [h8a]
    simp only [scanLoop, hkw, eofAt, Span.after]
    have hlen : utf8Len (c :: rest) = 1 + utf8Len rest := by
      simp [utf8Len, h1]
    simp [hlen]
  · intro rest2
    show ((scanLoop (rest2.length + 1 + 1) ('_' :: rest2) Span.new).2).head? = _
    simp only [scanLoop]
    rw [if_neg (show ¬('_' = '!' ∨ '_' = '=' ∨ '_' = '<' ∨ '_' = '>') by decide),
      if_neg (show ¬('_' = ' ' ∨ '_' = '\n' ∨ '_' = '\r' ∨ '_' = '\t') by decide),
      if_neg (show ¬('_' = '/') by decide), if_neg (show ¬('_' = '"') by decide)]
    simp [Span.new, Span.after, Span.grow, singleCharToken, Char.utf8Size]

/-- C9 witness: the amended statement at the identifier `ab_1`. -/
theorem C9_identifier_scanning_witness :
    scan "ab_1" =
        ([⟨.Identifier, "ab_1", ⟨0, 4⟩⟩, ⟨.Eof, "", ⟨4, 0⟩⟩], []) ∧
      ((scan "_x").2).head? = some ⟨⟨0, 1⟩, "unrecognized input"⟩ := by
  have h := C9_identifier_scanning 'a' ['b', '_', '1'] (by decide)
    (by decide) (by decide)
  exact ⟨h.1, h.2 ['x']⟩

/-- C10 witness: `1 / 0` evaluates without a diagnostic to infinity,
`0 / 0` to NaN, and `1 / "x"` to the number type error. -/
theorem C10_division_witness :
    evalBinRun (IState.new []) ⟨.Slash, "/", ⟨0, 1⟩⟩
        (.Num (F.fin ⟨1, 1⟩)) (.Num (F.fin ⟨0, 1⟩)) =
      (.ok (Value.Num F.posInf), IState.new []) ∧
      F.div (F.fin ⟨0, 1⟩) (F.fin ⟨0, 1⟩) = F.nan ∧
      (evalBinRun (IState.new []) ⟨.Slash, "/", ⟨0, 1⟩⟩
          (.Num (F.fin ⟨1, 1⟩)) (.Str "x")).1 =
        .error ⟨.TypeError "number", ⟨0, 1⟩⟩ := by
  refine ⟨?_, ?_, ?_⟩
  · have h := C10_division.1 (IState.new []) ⟨.Slash, "/", ⟨0, 1⟩⟩
      (F.fin ⟨1, 1⟩) (F.fin ⟨0, 1⟩) rfl
    rw [h]
    rfl
  · exact C10_division.2.2.1 ⟨0, 1⟩ ⟨0, 1⟩ rfl rfl
  · exact C10_division.2.2.2.2 (IState.new []) ⟨.Slash, "/", ⟨0, 1⟩⟩
      (.Num (F.fin ⟨1, 1⟩)) (.Str "x") rfl rfl

/-- C4 counterexample: in `{ var a = a; }` the resolver assigns distance 0
to the initializer's read of `a` (after flagging it as a
read-in-own-initializer error), yet at that read's runtime evaluation the
frame exactly 0 parent links up does not contain `a` — its `define` has
not run — so the recorded violation list is nonempty and the chained
lookup, continuing past that frame, fails with `UndeclaredVar`. -/
theorem C4_counterexample :
    runGhost "{ var a = a; }" =
      ([(Expr.Variable ⟨.Identifier, "a", ⟨10, 1⟩⟩, 0)],
       [Expr.Variable ⟨.Identifier, "a", ⟨10, 1⟩⟩],
       [(Expr.Variable ⟨.Identifier, "a", ⟨10, 1⟩⟩, 0)]) ∧
    (run "{ var a = a; }").runtimeErrorValue =
      some ⟨LoxError.UndeclaredVar "a", ⟨10, 1⟩⟩ := by
  constructor
  · rfl
  · rfl

/-- C4: at a reference the resolver assigned distance `dist`, when the
frame reached by walking exactly `dist` parent links itself binds the name,
the lookup is served from exactly that frame's own binding with the state
untouched; when it does not bind the name — as happens for a variable read
inside its own initializer, whose `define` has not yet run — the invariant
claimed by the specification fails, the interpreter records the violation,
and the chained lookup continues past the frame. -/
theorem C4_resolved_access (st : IState) (name : Token) (expr : Expr)
    (dist a : Nat) (fr : Frame)
    (hd : assocGet Expr.beq expr st.locals = some dist)
    (ha : envAncestor st.frames st.env dist = .ok a)
    (hf : st.frames.get? a = some fr) :
    (∀ v, assocGet strBeq name.lexeme fr.bindings = some v →
        ((lookupVar name expr).run).run st = (Except.ok v, st)) ∧
    (assocGet strBeq name.lexeme fr.bindings = none →
        (((lookupVar name expr).run).run st).2 =
          { st with violations := st.violations ++ [(expr, dist)] }) := by
  constructor
  · intro v hv
    have hfa : frameAtHas st.frames dist st.env name.lexeme = true := by
      simp only [frameAtHas, ha, hf, hv]; rfl
    have hg : get_at st.frames dist st.env name = .ok v := by
      simp only [get_at, bind, Except.bind, ha, envGet, envGetFuel, hf, hv]
    simp only [lookupVar]
    simp only [ExceptT.run, ExceptT.bind, ExceptT.mk, StateT.run, StateT.bind, bind,
      pure, ExceptT.pure, StateT.pure, get, set, getThe, MonadStateOf.get, StateT.get,
      MonadStateOf.set, StateT.set, ExceptT.bindCont, Monad.toBind, liftM, monadLift,
      MonadLift.monadLift, MonadLiftT.monadLift, StateT.lift, ExceptT.lift, throw,
      throwThe, MonadExceptOf.throw, Functor.map, StateT.map]
    simp only [hd, hfa, if_true]
    simp only [hg]
    rfl
  · intro hv
    have hfa : frameAtHas st.frames dist st.env name.lexeme = false := by
      simp only [frameAtHas, ha, hf, hv]; rfl
    simp only [lookupVar]
    simp only [ExceptT.run, ExceptT.bind, ExceptT.mk, StateT.run, StateT.bind, bind,
      pure, ExceptT.pure, StateT.pure, get, set, getThe, MonadStateOf.get, StateT.get,
      MonadStateOf.set, StateT.set, ExceptT.bindCont, Monad.toBind, liftM, monadLift,
      MonadLift.monadLift, MonadLiftT.monadLift, StateT.lift, ExceptT.lift, throw,
      throwThe, MonadExceptOf.throw, Functor.map, StateT.map]
    simp only [hd, hfa, if_false, Bool.false_eq_true]
    cases hg : get_at st.frames dist st.env name with
    | ok v => simp only [hg]; rfl
    | error e => simp only [hg]; rfl

/-- C4 witness: in a one-frame store binding `x` to `nil`, the reference to
`x` resolved at distance 0 is served from exactly that frame. -/
theorem C4_resolved_access_witness :
    ((lookupVar ⟨.Identifier, "x", ⟨0, 1⟩⟩
        (Expr.Variable ⟨.Identifier, "x", ⟨0, 1⟩⟩)).run).run
      { frames := [⟨none, [("x", Value.Nil)]⟩], env := 0, globals := 0,
        locals := [(Expr.Variable ⟨.Identifier, "x", ⟨0, 1⟩⟩, 0)], out := [],
        insts := [], nextRc := 0, clock := F.ofInt 0, violations := [] } =
      (Except.ok Value.Nil,
        { frames := [⟨none, [("x", Value.Nil)]⟩], env := 0, globals := 0,
          locals := [(Expr.Variable ⟨.Identifier, "x", ⟨0, 1⟩⟩, 0)], out := [],
          insts := [], nextRc := 0, clock := F.ofInt 0, violations := [] }) := by
  exact (C4_resolved_access
    { frames := [⟨none, [("x", Value.Nil)]⟩], env := 0, globals := 0,
      locals := [(Expr.Variable ⟨.Identifier, "x", ⟨0, 1⟩⟩, 0)], out := [],
      insts := [], nextRc := 0, clock := F.ofInt 0, violations := [] }
    ⟨.Identifier, "x", ⟨0, 1⟩⟩ (Expr.Variable ⟨.Identifier, "x", ⟨0, 1⟩⟩)
    0 0 ⟨none, [("x", Value.Nil)]⟩ rfl rfl rfl).1 Value.Nil rfl

end Loxide
